import Mathlib

/-
Verification development for the PLAR repository (src/msrc/runner_plar.py).

The definitions below are a shallow embedding of the parts of the program
the claims are about:

* the command compiler `ToolForm._build_command` together with
  `parse_module_runner` (module mode and command-template mode, including
  a faithful model of `str.format` on plain-name replacement fields and of
  POSIX `shlex.split`),
* the parameter codec `ToolForm._params_dict` / `ToolForm._apply_params` /
  `ToolForm._import_params` over a model of the form's widget states,
* the config loader `load_config`,
* the process supervisor `ProcRunner.run` / `ProcRunner.stop`.

Machine/environment effects (file existence checks, actual process
spawning, Qt event delivery) are modelled by explicit parameters: for the
supervisor, the behaviour of the spawned child is an explicit outcome
value, and fallible library calls are modelled as values recording whether
they raise.  Python values that can flow through the value bag are
modelled by the inductive `PVal`; Python floats are modelled as rationals.
-/

namespace Plar

/-! ## Basic string utilities (models of Python `str` methods) -/

/-- Whitespace characters recognised by Python `str.strip()` (ASCII fragment). -/
def isPySpace (c : Char) : Bool :=
  c = ' ' || c = '\t' || c = '\n' || c = '\r' || c = '\x0b' || c = '\x0c'

/-- Model of Python `str.strip()` on the character list. -/
def stripChars (l : List Char) : List Char :=
  ((l.dropWhile isPySpace).reverse.dropWhile isPySpace).reverse

/-- Model of Python `str.strip()`. -/
def pyStrip (s : String) : String := ⟨stripChars s.data⟩

/-- Split a character list at every occurrence of `sep`
(model of Python `str.split(sep)`; `"".split(sep) = [""]`). -/
def splitChar (sep : Char) : List Char → List (List Char)
  | [] => [[]]
  | c :: rest =>
    match splitChar sep rest with
    | [] => [[]]
    | hd :: tl => if c = sep then [] :: hd :: tl else (c :: hd) :: tl

/-- String version of `splitChar`. -/
def pySplit (sep : Char) (s : String) : List String :=
  (splitChar sep s.data).map (fun l => ⟨l⟩)

/-- Join character lists with a one-character separator (the character
list underlying Python `sep.join`). -/
def joinSep (sep : Char) : List (List Char) → List Char
  | [] => []
  | [x] => x
  | x :: y :: xs => x ++ sep :: joinSep sep (y :: xs)

/-- Model of Python `sep.join(items)` for a one-character separator. -/
def pyJoin (sep : Char) (items : List String) : String :=
  ⟨joinSep sep (items.map String.data)⟩

/-- Split at the first occurrence of `sep` (model of `str.split(sep, 1)`);
if `sep` is absent the whole list ends up in the first component. -/
def splitFirstChar (sep : Char) : List Char → List Char × List Char
  | [] => ([], [])
  | c :: rest =>
    if c = sep then ([], rest)
    else
      let p := splitFirstChar sep rest
      (c :: p.1, p.2)

/-- String version of `splitFirstChar`. -/
def pySplitFirst (sep : Char) (s : String) : String × String :=
  let p := splitFirstChar sep s.data
  (⟨p.1⟩, ⟨p.2⟩)

/-- ASCII lowercase conversion (model of Python `str.lower()` on ASCII data). -/
def pyLower (s : String) : String := ⟨s.data.map Char.toLower⟩

/-! ## Python values

`PVal` models the Python values that flow through a value bag, a
parameter-record `values` object, or a config record: strings, ints,
floats (as rationals), booleans, `None` and lists. -/

/-- Decidable equality for `Except` results, so concrete runs of the
embedded functions can be checked by `decide`. -/
instance {ε α : Type} [DecidableEq ε] [DecidableEq α] : DecidableEq (Except ε α) := fun a b =>
  match a, b with
  | .ok x, .ok y =>
    if h : x = y then .isTrue (congrArg _ h)
    else .isFalse (fun hc => h (Except.ok.inj hc))
  | .error x, .error y =>
    if h : x = y then .isTrue (congrArg _ h)
    else .isFalse (fun hc => h (Except.error.inj hc))
  | .ok _, .error _ => .isFalse (fun hc => Except.noConfusion hc)
  | .error _, .ok _ => .isFalse (fun hc => Except.noConfusion hc)

inductive PVal where
  | vstr (s : String)
  | vint (n : ℤ)
  | vfloat (q : ℚ)
  | vbool (b : Bool)
  | vnone
  | vlist (l : List String)
  deriving DecidableEq, Repr

/-- Decimal rendering of a rational (used only to give floats *some*
definite `str()` form; no claim depends on its exact shape). -/
def ratRepr (q : ℚ) : String :=
  toString q.num ++ "/" ++ toString q.den

/-- Model of Python `str(v)`. -/
def pyStr : PVal → String
  | .vstr s => s
  | .vint n => toString n
  | .vfloat q => ratRepr q
  | .vbool b => if b then "True" else "False"
  | .vnone => "None"
  | .vlist l => pyJoin ',' l

/-- Model of Python truthiness `bool(v)`. -/
def pyTruthy : PVal → Bool
  | .vstr s => s ≠ ""
  | .vint n => n ≠ 0
  | .vfloat q => q ≠ 0
  | .vbool b => b
  | .vnone => false
  | .vlist l => l ≠ []

/-- First-match association-list lookup (model of Python `dict` access;
dict keys are unique, so first match is the match). -/
def alist.lookup (k : String) : List (String × PVal) → Option PVal
  | [] => none
  | p :: rest => if p.1 = k then some p.2 else alist.lookup k rest

/-! ## `parse_module_runner` -/

/-- Embedding of `parse_module_runner` (runner_plar.py lines 164-169):
raises unless `":"` occurs in the string, then splits at the first `":"`
and strips both parts.  Note: the parts are *not* checked for emptiness. -/
def parse_module_runner (s : String) : Except String (String × String) :=
  if s.data.contains ':' then
    let p := pySplitFirst ':' s
    .ok (pyStrip p.1, pyStrip p.2)
  else
    .error "Runner must be 'pkg.module:function'"

/-! ## Tool specification -/

/-- Embedding of the `InputSpec` dataclass (fields used by the compiler,
codec and form; `label` is display-only and omitted from value handling
but kept for the loader model). -/
structure InputSpec where
  name : String
  type : String := "string"
  required : Bool := false
  readonly : Bool := false
  choices : Option (List String) := none
  deriving DecidableEq, Repr

/-- Embedding of the `ToolSpec` dataclass (fields used by the compiler and
codec). -/
structure ToolSpec where
  name : String
  runner_mode : String := "module"
  runner : String := ""
  script : Option String := none
  inputs : List InputSpec := []
  deriving DecidableEq, Repr

/-! ## Command template formatting

Model of Python `str.format(**placeholders)` restricted to the fragment
this program uses: replacement fields are plain names (`{name}`), `{{` and
`}}` are brace escapes.  Conversion/format-spec syntax (`{x!r}`, `{x:>3}`)
and attribute/index access are outside the modelled fragment: templates
containing them are mapped to a parse failure. -/

inductive Seg where
  | lit (c : Char)
  | hole (name : String)
  deriving DecidableEq, Repr

/-- A character allowed inside a plain replacement-field name. -/
def plainNameChar (c : Char) : Bool :=
  !(c = '{' || c = '}' || c = '!' || c = ':' || c = '.' || c = '[' || c = ']')

/-- Parse a format template into literal/hole segments.  The second
argument is `none` outside a replacement field and `some nm` while the
name of a field is being accumulated. -/
def parseTGo : List Char → Option String → Option (List Seg)
  | [], none => some []
  | [], some _ => none
  | '{' :: '{' :: rest, none => (parseTGo rest none).map (Seg.lit '{' :: ·)
  | '{' :: rest, none => parseTGo rest (some "")
  | '}' :: '}' :: rest, none => (parseTGo rest none).map (Seg.lit '}' :: ·)
  | '}' :: _, none => none
  | c :: rest, none => (parseTGo rest none).map (Seg.lit c :: ·)
  | '}' :: rest, some nm =>
    if nm = "" then none else (parseTGo rest none).map (Seg.hole nm :: ·)
  | c :: rest, some nm =>
    if plainNameChar c then parseTGo rest (some (nm.push c)) else none

/-- Parse a format template into literal/hole segments. -/
def parseTemplate (l : List Char) : Option (List Seg) :=
  parseTGo l none

/-- Render parsed segments against a placeholder table; a missing key `k`
becomes the `ValueError` text raised by `_build_command` (which formats
the `KeyError`, whose `str()` wraps the key in single quotes). -/
def renderSegs (lk : String → Option String) : List Seg → Except String String
  | [] => .ok ""
  | .lit c :: rest => (renderSegs lk rest).map (fun s => ⟨c :: s.data⟩)
  | .hole nm :: rest =>
    match lk nm with
    | none =>
      .error (String.append (String.append "Missing placeholder in template: " "\x27")
        (String.append nm "\x27"))
    | some v => (renderSegs lk rest).map (fun s => v ++ s)

/-- Model of `template.format(**placeholders)` followed by the
`except KeyError` re-raise in `_build_command`. -/
def pyFormat (template : String) (lk : String → Option String) : Except String String :=
  match parseTemplate template.data with
  | none => .error "Invalid format string."
  | some segs => renderSegs lk segs

/-- The `ValueError` message produced for a missing placeholder `k`. -/
def missingKeyMsg (k : String) : String :=
  String.append (String.append "Missing placeholder in template: " "\x27")
    (String.append k "\x27")

/-! ## `shlex.split`

State-machine model of Python `shlex.split` in POSIX mode:
whitespace separates tokens; `'...'` is literal; inside `"..."` a
backslash escapes only `"` and `\` (otherwise it is kept); outside quotes
a backslash escapes any character; an unterminated quote or trailing
escape raises `ValueError`. -/

inductive SMode where
  | norm
  | sq
  | dq
  | escNorm
  | escDq
  deriving DecidableEq, Repr

/-- shlex's whitespace set (its `whitespace` attribute). -/
def isShlexWS (c : Char) : Bool :=
  c = ' ' || c = '\t' || c = '\r' || c = '\n'

/-- One-character-at-a-time tokenizer underlying `shlexSplit`. -/
def shlexGo : List Char → SMode → Option String → List String → Except String (List String)
  | [], mode, cur, acc =>
    match mode with
    | .norm => .ok (acc ++ cur.toList)
    | .sq => .error "No closing quotation"
    | .dq => .error "No closing quotation"
    | .escNorm => .error "No escaped character"
    | .escDq => .error "No escaped character"
  | c :: rest, mode, cur, acc =>
    match mode with
    | .norm =>
      if isShlexWS c then
        match cur with
        | some t => shlexGo rest .norm none (acc ++ [t])
        | none => shlexGo rest .norm none acc
      else if c = '\'' then shlexGo rest .sq (some (cur.getD "")) acc
      else if c = '"' then shlexGo rest .dq (some (cur.getD "")) acc
      else if c = '\\' then shlexGo rest .escNorm (some (cur.getD "")) acc
      else shlexGo rest .norm (some ((cur.getD "").push c)) acc
    | .sq =>
      if c = '\'' then shlexGo rest .norm cur acc
      else shlexGo rest .sq (some ((cur.getD "").push c)) acc
    | .dq =>
      if c = '"' then shlexGo rest .norm cur acc
      else if c = '\\' then shlexGo rest .escDq cur acc
      else shlexGo rest .dq (some ((cur.getD "").push c)) acc
    | .escNorm => shlexGo rest .norm (some ((cur.getD "").push c)) acc
    | .escDq =>
      if c = '"' || c = '\\' then shlexGo rest .dq (some ((cur.getD "").push c)) acc
      else shlexGo rest .dq (some (((cur.getD "").push '\\').push c)) acc

/-- Model of `shlex.split`. -/
def shlexSplit (s : String) : Except String (List String) :=
  shlexGo s.data .norm none []

/-! ## `ToolForm._build_command` -/

/-- The placeholder table built by `_build_command` (lines 1253-1267),
as a lookup function.  Assignment order in the Python dict means
toggle-derived keys override the four fixed keys, which override the
value-bag keys. -/
def phLookup (py : String) (tool : ToolSpec) (vals : List (String × PVal))
    (k : String) : Option String :=
  let toggles := (tool.inputs.filter (fun i => i.type = "toggle")).map (·.name)
  let flagOf (t : String) : Option String :=
    if k = t ++ "_flag" then
      some (if pyTruthy ((alist.lookup t vals).getD .vnone) then "--" ++ t else "--no-" ++ t)
    else if k = t ++ "_yn" then
      some (if pyTruthy ((alist.lookup t vals).getD .vnone) then "yes" else "no")
    else if k = t ++ "_01" then
      some (if pyTruthy ((alist.lookup t vals).getD .vnone) then "1" else "0")
    else none
  match toggles.findSome? flagOf with
  | some v => some v
  | none =>
    if k = "python" then some py
    else if k = "python_u" then some (py ++ " -u")
    else if k = "script" then some (tool.script.getD "")
    else if k = "output_dir" then
      some (match alist.lookup "_output_dir" vals with
            | some v => if pyTruthy v then pyStr v else ""
            | none => "")
    else (alist.lookup k vals).map pyStr

/-- Embedding of `ToolForm._build_command` (lines 1244-1295).  `py` is
`sys.executable` (its `os.path.isfile` existence check is an I/O effect
outside the embedding).  The value bag `vals` is the dict produced by
`collect_values`, as an insertion-ordered association list. -/
def buildCommand (py : String) (tool : ToolSpec) (vals : List (String × PVal)) :
    Except String (List String) :=
  if tool.runner_mode = "module" then
    match parse_module_runner tool.runner with
    | .error e => .error e
    | .ok (md, fn) =>
      .ok ([py, "-u", "-m", md, "--func", fn]
        ++ (vals.filter (fun p => p.1 ≠ "_output_dir")).flatMap
             (fun p => ["--" ++ p.1, pyStr p.2])
        ++ (match alist.lookup "_output_dir" vals with
            | some v => if pyTruthy v then ["--output_dir", pyStr v] else []
            | none => []))
  else if tool.runner_mode = "command" then
    if tool.runner = "" then .error "Command template is empty."
    else
      match pyFormat tool.runner (phLookup py tool vals) with
      | .error e => .error e
      | .ok s => shlexSplit s
  else
    .error ("Unknown runner_mode: " ++ tool.runner_mode)

/-- The argument-vector shape the spec promises for module mode, written
from the spec's words (interpreter, `-u`, `-m`, module, `--func`, entry,
one `--name value` pair per non-reserved entry, then the optional
`--output_dir` suffix).  Used to state the refinement claim C1. -/
def moduleArgvSpecShape (py md fn : String) (vals : List (String × PVal)) : List String :=
  [py, "-u", "-m", md, "--func", fn]
  ++ (vals.filter (fun p => p.1 ≠ "_output_dir")).flatMap
       (fun p => ["--" ++ p.1, pyStr p.2])
  ++ (match alist.lookup "_output_dir" vals with
      | some v => if pyTruthy v then ["--output_dir", pyStr v] else []
      | none => [])

/-- Embedding of the compile-then-run decision of `ToolForm._on_run`
(lines 1191-1212): a required value that is `None`, `""` or `[]`, or any
`_build_command` exception, shows an error dialog and returns without
scheduling a process; otherwise the built vector becomes the pending
command that `_start_run` spawns.  `none` therefore means "no process is
ever spawned for this click". -/
def requiredValueMissing (v : PVal) : Bool :=
  v = .vnone || v = .vstr "" || v = .vlist []

def onRun (py : String) (tool : ToolSpec) (vals : List (String × PVal)) :
    Option (List String) :=
  if tool.inputs.any
      (fun spec => spec.required && requiredValueMissing ((alist.lookup spec.name vals).getD (.vstr ""))) then
    none
  else
    match buildCommand py tool vals with
    | .ok cmd => some cmd
    | .error _ => none

/-! ## Process supervisor: `ProcRunner.run` (claim C2)

`ProcRunner.run` (lines 187-209) emits `started`, spawns the child, pumps
its merged output line by line, waits, and emits `finished(rc)`.  The one
`except Exception` around the whole body catches a spawn failure *and*
any later exception (e.g. a decode error while iterating the merged
stream) and emits `error(msg)` followed by `finished(-1)`.

The environment's behaviour for one call is an explicit outcome:
`spawnFail` (Popen raised), `completes` (the pump loop and `wait()`
returned `rc`), or `midFail` (Popen succeeded but an exception was raised
later inside the `try` body, after `pre` lines had been emitted). -/

inductive PEvent where
  | startedEv
  | lineEv (s : String)
  | errorEv (msg : String)
  | finishedEv (code : ℤ)
  deriving DecidableEq, Repr

inductive ChildOutcome where
  | spawnFail (msg : String)
  | completes (lines : List String) (rc : ℤ)
  | midFail (pre : List String) (msg : String)
  deriving DecidableEq, Repr

/-- The event sequence `ProcRunner.run` emits for a given outcome. -/
def runEvents : ChildOutcome → List PEvent
  | .spawnFail m => [.startedEv, .errorEv m, .finishedEv (-1)]
  | .completes ls rc => .startedEv :: (ls.map PEvent.lineEv ++ [.finishedEv rc])
  | .midFail pre m =>
    .startedEv :: (pre.map PEvent.lineEv ++ [.errorEv m, .finishedEv (-1)])

/-- `Popen` succeeded (the process started) in this outcome. -/
def launched : ChildOutcome → Bool
  | .spawnFail _ => false
  | _ => true

/-- The exit code the single `finished` event carries. -/
def exitReport : ChildOutcome → ℤ
  | .completes _ rc => rc
  | _ => -1

def isFinishedEv : PEvent → Bool
  | .finishedEv _ => true
  | _ => false

/-! ## Process supervisor: `ProcRunner.stop` (claim C3)

`ProcRunner.stop` (lines 211-226): inside one `try`, if a child exists it
sends the platform soft interrupt (`CTRL_BREAK_EVENT` on Windows,
`terminate()` elsewhere), sleeps the grace period (0.4 s / 0.5 s), then
kills — unconditionally on Windows, only if `poll()` is still `None` on
POSIX.  `except Exception: pass` swallows any exception, abandoning the
remaining steps. -/

inductive StopAction where
  | softBreak
  | terminateSig
  | sleepMs (n : ℕ)
  | kill
  deriving DecidableEq, Repr

/-- The child as `stop()` sees it: whether the soft-interrupt delivery
raises, and whether the child has exited once the grace sleep ends. -/
structure ChildView where
  softRaises : Bool
  exitedInGrace : Bool
  deriving DecidableEq, Repr

/-- The `try`-block body: the actions attempted in order, and the
exception it raises, if any. -/
def stopBody (windows : Bool) (c : ChildView) : List StopAction × Option String :=
  if windows then
    if c.softRaises then ([.softBreak], some "signal delivery failed")
    else ([.softBreak, .sleepMs 400, .kill], none)
  else
    if c.softRaises then ([.terminateSig], some "signal delivery failed")
    else if c.exitedInGrace then ([.terminateSig, .sleepMs 500], none)
    else ([.terminateSig, .sleepMs 500, .kill], none)

/-- Embedding of `ProcRunner.stop`: the `except Exception: pass` swallows
whatever the body raises, so the second component (the exception
propagated to the caller) is always `none`. -/
def procStop (windows : Bool) (proc : Option ChildView) : List StopAction × Option String :=
  match proc with
  | none => ([], none)
  | some c => ((stopBody windows c).1, none)

/-! ## Form state (widget model) for the parameter codec

`set_tool` builds one widget per declared input, keyed by name.  The
kinds map to widget states as follows: string/file/folder/password (and
any unknown type) are line edits holding text; `int` is a `QSpinBox`
(range ±10⁹ — its stored value is always clamped, which `fieldWF`
records); `float` a `QDoubleSpinBox` (range ±10¹², 6 decimals — stored
value clamped and rounded); `enum` a combo box holding a current text and
its item list; `multienum` a checkable combo (per-row checked flags);
`date` a `QDateEdit`, which always holds a valid date and is modelled by
that date's canonical `yyyy-MM-dd` rendering (recorded by `fieldWF`);
`toggle` a checkbox; `list` a plain-text edit.  A widget/type mismatch
cannot occur in a form built by `set_tool` (it creates the matching
widget per type); the model totalises `collect_values` by skipping such a
field. -/

inductive Field where
  | fline (text : String)
  | fint (v : ℤ)
  | ffloat (q : ℚ)
  | fenum (current : String) (choices : List String)
  | fmulti (choices : List String) (checked : List Bool)
  | fdate (s : String)
  | ftoggle (b : Bool)
  | flist (text : String)
  deriving DecidableEq, Repr

/-- The form's widget states: one optional field per name
(`self.fields`), plus the output-directory line edit. -/
structure FormState where
  fields : String → Option Field
  outText : String

def stringishType (t : String) : Bool :=
  t = "string" || t = "file" || t = "folder" || t = "password"

/-- Decidable string-list membership (model of Python `in` on strings). -/
def strMem (x : String) (l : List String) : Bool :=
  l.any (fun y => y = x)

/-- `s.startswith("_")`. -/
def underscored (s : String) : Bool :=
  match s.data with
  | '_' :: _ => true
  | _ => false

/-- `CheckableComboBox.checkedItems`: the texts of the checked rows, in
model order. -/
def checkedItems : List String → List Bool → List String
  | c :: cs, b :: bs => if b then c :: checkedItems cs bs else checkedItems cs bs
  | _, _ => []

/-- `[ln.strip() for ln in txt.splitlines() if ln.strip()]` (the composite
is insensitive to the difference between `splitlines` and splitting on
newline, because empty results are filtered). -/
def collectLines (txt : String) : List String :=
  ((pySplit '\n' txt).map pyStrip).filter (fun l => l ≠ "")

/-- One branch of `collect_values` (lines 1158-1189): the value collected
for a declared input of type `t` whose widget state is `f`, following the
dispatch order of the Python `if/elif` chain. -/
def collectOne (t : String) (f : Field) : Option PVal :=
  if stringishType t then
    match f with
    | .fline s => some (.vstr (pyStrip s))
    | _ => none
  else if t = "int" then
    match f with
    | .fint v => some (.vint v)
    | _ => none
  else if t = "float" then
    match f with
    | .ffloat q => some (.vfloat q)
    | _ => none
  else if t = "enum" then
    match f with
    | .fenum cur _ => some (.vstr cur)
    | _ => none
  else if t = "multienum" then
    match f with
    | .fmulti cs bs => some (.vstr (pyJoin ',' (checkedItems cs bs)))
    | _ => none
  else if t = "date" then
    match f with
    | .fdate s => some (.vstr s)
    | _ => none
  else if t = "toggle" then
    match f with
    | .ftoggle b => some (.vbool b)
    | _ => none
  else if t = "list" then
    match f with
    | .flist txt => some (.vstr (pyJoin ',' (collectLines txt)))
    | _ => none
  else
    match f with
    | .fline s => some (.vstr (pyStrip s))
    | _ => none

/-- Embedding of `collect_values`: one entry per declared input in
declaration order, then the reserved `_output_dir` key holding the
stripped output-directory text, or `None` when it is empty. -/
def collectValues (tool : ToolSpec) (st : FormState) : List (String × PVal) :=
  (tool.inputs.filterMap (fun spec =>
    match st.fields spec.name with
    | none => none
    | some f => (collectOne spec.type f).map (fun v => (spec.name, v))))
  ++ [("_output_dir",
        if pyStrip st.outText = "" then PVal.vnone else PVal.vstr (pyStrip st.outText))]

/-- The `values` object of `_params_dict` (lines 1297-1311): the collected
bag minus every key starting with `_` (which removes the reserved
`_output_dir` key). -/
def paramsValues (tool : ToolSpec) (st : FormState) : List (String × PVal) :=
  (collectValues tool st).filter (fun p => !(underscored p.1))

/-- The portable parameter record: the pieces of the exported payload the
importer reads (`meta.tool` and `values`; the other meta fields are
provenance only). -/
structure ParamRecord where
  toolName : Option String
  values : List (String × PVal)

/-- `_params_dict` as a record: `meta.tool` is the current tool's name. -/
def exportRecord (tool : ToolSpec) (st : FormState) : ParamRecord :=
  { toolName := some tool.name, values := paramsValues tool st }

/-! ## Python numeric coercions (the fragment `_apply_params` uses) -/

def natOfDigits? (l : List Char) : Option ℕ :=
  if l.isEmpty then none
  else if l.all Char.isDigit then
    some (l.foldl (fun acc c => acc * 10 + (c.toNat - 48)) 0)
  else none

/-- Model of `int(s)` for a string: optional sign, decimal digits,
surrounding whitespace stripped. -/
def pyIntOfStr (s : String) : Except String ℤ :=
  let bad : Except String ℤ :=
    .error ("invalid literal for int() with base 10: " ++ "\x27" ++ s ++ "\x27")
  match stripChars s.data with
  | '-' :: ds =>
    match natOfDigits? ds with
    | some n => .ok (-(n : ℤ))
    | none => bad
  | '+' :: ds =>
    match natOfDigits? ds with
    | some n => .ok (n : ℤ)
    | none => bad
  | ds =>
    match natOfDigits? ds with
    | some n => .ok (n : ℤ)
    | none => bad

/-- Model of Python `int(v)` (floats truncate toward zero). -/
def pyInt : PVal → Except String ℤ
  | .vint n => .ok n
  | .vbool b => .ok (if b then 1 else 0)
  | .vfloat q => .ok (Int.tdiv q.num (q.den : ℤ))
  | .vstr s => pyIntOfStr s
  | .vnone => .error "int() argument must be a string or a number, not NoneType"
  | .vlist _ => .error "int() argument must be a string or a number, not list"

/-- Model of an unsigned decimal float literal `digits[.digits]`
(the fragment of `float(s)` the codec needs). -/
def qOfDigits? (l : List Char) : Option ℚ :=
  if l.contains '.' then
    let p := splitFirstChar '.' l
    match natOfDigits? p.1, natOfDigits? p.2 with
    | some ip, some fp => some ((ip : ℚ) + (fp : ℚ) / ((10 : ℚ) ^ p.2.length))
    | _, _ => none
  else (natOfDigits? l).map (fun n => (n : ℚ))

/-- Model of `float(s)` for a string (minimal decimal fragment). -/
def pyFloatOfStr (s : String) : Except String ℚ :=
  let bad : Except String ℚ :=
    .error ("could not convert string to float: " ++ "\x27" ++ s ++ "\x27")
  match stripChars s.data with
  | '-' :: ds =>
    match qOfDigits? ds with
    | some q => .ok (-q)
    | none => bad
  | '+' :: ds =>
    match qOfDigits? ds with
    | some q => .ok q
    | none => bad
  | ds =>
    match qOfDigits? ds with
    | some q => .ok q
    | none => bad

/-- Model of Python `float(v)`. -/
def pyFloat : PVal → Except String ℚ
  | .vfloat q => .ok q
  | .vint n => .ok (n : ℚ)
  | .vbool b => .ok (if b then 1 else 0)
  | .vstr s => pyFloatOfStr s
  | .vnone => .error "float() argument must be a string or a number, not NoneType"
  | .vlist _ => .error "float() argument must be a string or a number, not list"

/-- `QSpinBox.setValue` clamps into the configured range ±10⁹. -/
def spinSet (v : ℤ) : ℤ := max (-(10 ^ 9)) (min (10 ^ 9) v)

/-- `QDoubleSpinBox` stores values rounded to its 6 configured decimals. -/
def round6 (q : ℚ) : ℚ := (round (q * 1000000) : ℚ) / 1000000

/-- `QDoubleSpinBox.setValue`: clamp into ±10¹² and round to 6 decimals. -/
def dspinSet (q : ℚ) : ℚ :=
  max (-(10 ^ 12 : ℚ)) (min ((10 : ℚ) ^ 12) (round6 q))

/-! ## Date strings (`QDate.fromString`/`toString` with `yyyy-MM-dd`) -/

def leapYear (y : ℕ) : Bool :=
  (y % 4 = 0 && !(y % 100 = 0)) || y % 400 = 0

def daysInMonth (y m : ℕ) : ℕ :=
  if m = 2 then (if leapYear y then 29 else 28)
  else if m = 4 || m = 6 || m = 9 || m = 11 then 30
  else 31

def digitVal (c : Char) : ℕ := c.toNat - 48

/-- Whether `s` is the canonical `yyyy-MM-dd` rendering of a valid
(proleptic Gregorian) date — exactly the strings `QDate.fromString`
accepts for this format, which are also exactly the possible outputs of
`QDate.toString` for valid dates. -/
def isCanonicalDateStr (s : String) : Bool :=
  match s.data with
  | [y1, y2, y3, y4, h1, m1, m2, h2, d1, d2] =>
    h1 = '-' && h2 = '-' &&
    [y1, y2, y3, y4, m1, m2, d1, d2].all Char.isDigit &&
    (let y := ((digitVal y1 * 10 + digitVal y2) * 10 + digitVal y3) * 10 + digitVal y4
     let m := digitVal m1 * 10 + digitVal m2
     let d := digitVal d1 * 10 + digitVal d2
     decide (1 ≤ y) && decide (1 ≤ m) && decide (m ≤ 12) &&
       decide (1 ≤ d) && decide (d ≤ daysInMonth y m))
  | _ => false

/-! ## `ToolForm._apply_params` -/

/-- The CSV-or-sequence item normalisation shared by the multienum and
list branches of `_apply_params`. -/
def applyItems : PVal → List String
  | .vstr s => ((pySplit ',' s).map pyStrip).filter (fun x => x ≠ "")
  | .vlist l => l
  | _ => []

/-- The `try`-body of one `_apply_params` iteration (lines 1326-1370):
coerce `v` per the declared type `t` and produce the new widget state; a
coercion error (e.g. `int(v)` on a non-numeric string) is the raised
exception.  Branches whose `isinstance` guard fails leave the widget
untouched. -/
def applyOne (t : String) (f : Field) (v : PVal) : Except String Field :=
  if stringishType t then
    match f with
    | .fline _ => .ok (.fline (if pyTruthy v then pyStr v else ""))
    | _ => .ok f
  else if t = "int" then
    match f with
    | .fint _ => (pyInt v).map (fun n => .fint (spinSet n))
    | _ => .ok f
  else if t = "float" then
    match f with
    | .ffloat _ => (pyFloat v).map (fun q => .ffloat (dspinSet q))
    | _ => .ok f
  else if t = "enum" then
    match f with
    | .fenum cur cs =>
      .ok (.fenum (if strMem (pyStr v) cs then pyStr v else cur) cs)
    | _ => .ok f
  else if t = "multienum" then
    match f with
    | .fmulti cs _ =>
      .ok (.fmulti cs (cs.map (fun c => strMem c (applyItems v))))
    | _ => .ok f
  else if t = "date" then
    match f with
    | .fdate s =>
      .ok (.fdate (if isCanonicalDateStr (pyStr v) then pyStr v else s))
    | _ => .ok f
  else if t = "toggle" then
    match f with
    | .ftoggle _ =>
      .ok (.ftoggle (decide (v = PVal.vbool true)
        || strMem (pyLower (pyStrip (pyStr v))) ["1", "true", "yes", "on"]))
    | _ => .ok f
  else if t = "list" then
    match f with
    | .flist _ => .ok (.flist (pyJoin '\n' (applyItems v)))
    | _ => .ok f
  else
    match f with
    | .fline _ => .ok (.fline (if pyTruthy v then pyStr v else ""))
    | _ => .ok f

/-- One iteration of the `_apply_params` loop: skip names absent from the
imported `values` or without a widget; otherwise run the `try`-body, and
on an exception log `[apply] name: e` and continue. -/
def applyStep (values : List (String × PVal)) (acc : FormState × List String)
    (spec : InputSpec) : FormState × List String :=
  match alist.lookup spec.name values with
  | none => acc
  | some v =>
    match acc.1.fields spec.name with
    | none => acc
    | some f =>
      match applyOne spec.type f v with
      | .ok fNew =>
        (⟨fun n => if n = spec.name then some fNew else acc.1.fields n, acc.1.outText⟩,
          acc.2)
      | .error e =>
        (acc.1, acc.2 ++ ["[apply] " ++ spec.name ++ ": " ++ e])

/-- Embedding of `_apply_params` (lines 1313-1374): iterate the declared
inputs, applying each matching imported value independently; the second
component is the sequence of `[apply]` lines appended to the output log. -/
def applyParams (tool : ToolSpec) (values : List (String × PVal)) (st : FormState) :
    FormState × List String :=
  tool.inputs.foldl (applyStep values) (st, [])

/-! ## `ToolForm._import_params` (tool-name mismatch guard) -/

/-- The mismatch guard of `_import_params` (lines 1413-1423): result is
`(prompted, applied)`.  The question box is shown only when the record's
stripped tool name is non-empty *and* differs from the current tool's
stripped name; `confirm` is the caller's answer when prompted. -/
def importApply (curName : String) (rec : ParamRecord) (confirm : Bool) : Bool × Bool :=
  let metaTool := pyStrip (rec.toolName.getD "")
  let cur := pyStrip curName
  if metaTool ≠ "" ∧ metaTool ≠ cur then (true, confirm) else (false, true)

/-! ## Well-formedness of a built form

`fieldWF` records the invariants every widget built by `set_tool` and
mutated through the UI maintains: the widget kind matches the declared
type; a spin box stores a clamped value; a double spin box stores a
clamped, rounded value; a date edit holds a valid date.  The comma/strip
conditions on list and multienum entries demarcate where the codec
round-trip genuinely holds (see the C7 counterexample). -/

def strNoComma (x : String) : Bool := !(x.data.any (fun c => c = ','))

def goodItem (x : String) : Bool :=
  strNoComma x && decide (pyStrip x = x) && decide (x ≠ "")

def fieldWF (t : String) (f : Field) : Bool :=
  if stringishType t then
    (match f with | .fline _ => true | _ => false)
  else if t = "int" then
    (match f with | .fint v => decide (spinSet v = v) | _ => false)
  else if t = "float" then
    (match f with | .ffloat q => decide (dspinSet q = q) | _ => false)
  else if t = "enum" then
    (match f with | .fenum _ _ => true | _ => false)
  else if t = "multienum" then
    (match f with
     | .fmulti cs bs => decide cs.Nodup && (checkedItems cs bs).all goodItem
     | _ => false)
  else if t = "date" then
    (match f with | .fdate s => isCanonicalDateStr s | _ => false)
  else if t = "toggle" then
    (match f with | .ftoggle _ => true | _ => false)
  else if t = "list" then
    (match f with | .flist txt => (collectLines txt).all strNoComma | _ => false)
  else
    (match f with | .fline _ => true | _ => false)

/-- The form has a widget for `spec` and it satisfies its invariants. -/
def fieldOkAt (st : FormState) (spec : InputSpec) : Bool :=
  match st.fields spec.name with
  | some f => fieldWF spec.type f
  | none => false

def formWF (tool : ToolSpec) (st : FormState) : Prop :=
  (tool.inputs.map InputSpec.name).Nodup ∧
  ∀ spec ∈ tool.inputs, fieldOkAt st spec = true

/-- Concrete tool and form state witnessing the C7 counterexample: one
list parameter whose single line contains a comma followed by a space. -/
def c7exTool : ToolSpec :=
  { name := "T", inputs := [{ name := "xs", type := "list" }] }

def c7exState : FormState :=
  { fields := fun n => if n = "xs" then some (.flist "a, b") else none
    outText := "" }

/-! ## `load_config` (claim C9)

JSON values and the loader.  The tool-record reader takes each known
field with `t.get(key, default)` and ignores every other key.  The
input-record reader copies the dict, pops the one legacy key
`placeholder`, and calls `InputSpec(**i)`, which raises `TypeError` for
any remaining unknown key and for a missing `name`; the dataclass stores
the field values untyped, which `PInputRec`/`PToolRec` mirror by keeping
them as JSON values. -/

inductive JVal where
  | jstr (s : String)
  | jint (n : ℤ)
  | jbool (b : Bool)
  | jnull
  | jarr (l : List JVal)
  | jobj (l : List (String × JVal))

def jlookup (k : String) : List (String × JVal) → Option JVal
  | [] => none
  | p :: rest => if p.1 = k then some p.2 else jlookup k rest

def inputFieldNames : List String :=
  ["name", "type", "label", "default", "choices", "required", "readonly"]

structure PInputRec where
  name : JVal
  type : JVal
  label : JVal
  default : JVal
  choices : JVal
  required : JVal
  readonly : JVal

structure PToolRec where
  name : JVal
  runner_mode : JVal
  runner : JVal
  script : JVal
  output_dir_optional : JVal
  notes : JVal
  inputs : List PInputRec

/-- `i.pop("placeholder", None)` then `InputSpec(**i)`. -/
def inputOfRec (r : List (String × JVal)) : Except String PInputRec :=
  let rr := r.filter (fun p => p.1 ≠ "placeholder")
  match rr.find? (fun p => !(strMem p.1 inputFieldNames)) with
  | some p =>
    .error ("TypeError: unexpected keyword argument " ++ "\x27" ++ p.1 ++ "\x27")
  | none =>
    match jlookup "name" rr with
    | none => .error "TypeError: missing required argument: name"
    | some nm =>
      .ok { name := nm
            type := (jlookup "type" rr).getD (.jstr "string")
            label := (jlookup "label" rr).getD .jnull
            default := (jlookup "default" rr).getD .jnull
            choices := (jlookup "choices" rr).getD .jnull
            required := (jlookup "required" rr).getD (.jbool false)
            readonly := (jlookup "readonly" rr).getD (.jbool false) }

/-- `for i in t.get("inputs", [])` requires each element to be a dict. -/
def asObjList : List JVal → Except String (List (List (String × JVal)))
  | [] => .ok []
  | .jobj o :: rest => (asObjList rest).map (o :: ·)
  | _ :: _ => .error "TypeError: input record is not a dict"

def mapInputs : List (List (String × JVal)) → Except String (List PInputRec)
  | [] => .ok []
  | r :: rest =>
    match inputOfRec r with
    | .error e => .error e
    | .ok i => (mapInputs rest).map (i :: ·)

/-- One iteration of the `load_config` loop over tool records. -/
def toolOfRec (t : List (String × JVal)) : Except String PToolRec :=
  let inputsJ : Except String (List (List (String × JVal))) :=
    match jlookup "inputs" t with
    | none => .ok []
    | some (.jarr l) => asObjList l
    | some _ => .error "TypeError: inputs is not iterable"
  match inputsJ with
  | .error e => .error e
  | .ok objs =>
    match mapInputs objs with
    | .error e => .error e
    | .ok ins =>
      .ok { name := (jlookup "name" t).getD (.jstr "Untitled")
            runner_mode := (jlookup "runner_mode" t).getD (.jstr "module")
            runner := (jlookup "runner" t).getD (.jstr "")
            script := (jlookup "script" t).getD .jnull
            output_dir_optional := (jlookup "output_dir_optional" t).getD (.jbool false)
            notes := (jlookup "notes" t).getD .jnull
            inputs := ins }

/-- Embedding of `load_config`'s parsing loop (lines 119-139) over an
already-parsed JSON array of tool objects. -/
def loadTools : List (List (String × JVal)) → Except String (List PToolRec)
  | [] => .ok []
  | t :: rest =>
    match toolOfRec t with
    | .error e => .error e
    | .ok tr => (loadTools rest).map (tr :: ·)

/-- The tool-record keys `load_config` reads. -/
def toolFieldNames : List String :=
  ["name", "runner_mode", "runner", "script", "output_dir_optional", "notes", "inputs"]

/-! ## Lemmas about template rendering -/

/-- If every hole of a parsed template is declared in the lookup table,
rendering succeeds. -/
theorem renderSegs_ok_of_declared (lk : String → Option String) :
    ∀ segs : List Seg, (∀ nm, Seg.hole nm ∈ segs → (lk nm).isSome) →
      ∃ s, renderSegs lk segs = .ok s := by
  intro segs
  induction segs with
  | nil => intro _; exact ⟨"", rfl⟩
  | cons sg rest ih =>
    intro h
    have hrest : ∀ nm, Seg.hole nm ∈ rest → (lk nm).isSome := by
      intro nm hm; exact h nm (List.mem_cons_of_mem _ hm)
    obtain ⟨s, hs⟩ := ih hrest
    cases sg with
    | lit c => exact ⟨⟨c :: s.data⟩, by simp [renderSegs, hs, Except.map]⟩
    | hole nm =>
      have : (lk nm).isSome := h nm (List.mem_cons_self _ _)
      obtain ⟨v, hv⟩ := Option.isSome_iff_exists.mp this
      exact ⟨v ++ s, by simp [renderSegs, hv, hs, Except.map]⟩

/-- Rendering stops at the first undeclared hole with the `ValueError`
that names that hole. -/
theorem renderSegs_error_at_first_missing (lk : String → Option String) :
    ∀ (pre : List Seg) (k : String) (rest : List Seg),
      (∀ nm, Seg.hole nm ∈ pre → (lk nm).isSome) → lk k = none →
      renderSegs lk (pre ++ Seg.hole k :: rest) = .error (missingKeyMsg k) := by
  intro pre
  induction pre with
  | nil =>
    intro k rest _ hk
    simp [renderSegs, hk, missingKeyMsg]
  | cons sg pre ih =>
    intro k rest hdecl hk
    have hpre : ∀ nm, Seg.hole nm ∈ pre → (lk nm).isSome := by
      intro nm hm; exact hdecl nm (List.mem_cons_of_mem _ hm)
    have hrec := ih k rest hpre hk
    cases sg with
    | lit c => simp [renderSegs, hrec, Except.map]
    | hole nm =>
      have : (lk nm).isSome := hdecl nm (List.mem_cons_self _ _)
      obtain ⟨v, hv⟩ := Option.isSome_iff_exists.mp this
      simp [renderSegs, hv, hrec, Except.map]

/-! ## Claim C1: module-mode argument-vector shape -/

/-- C1: in module mode, for every tool and value bag that compile
successfully, the produced argument vector has exactly the contracted
shape: interpreter, `-u`, `-m`, module path, `--func`, entry name, one
`--name value` token pair per non-reserved value-bag entry, and, when the
reserved output-directory value is present and truthy, `--output_dir dir`
as the final two tokens; in particular `--func` follows the module token
immediately. -/
theorem c1_module_argv_shape (py : String) (tool : ToolSpec)
    (vals : List (String × PVal)) (md fn : String)
    (hmode : tool.runner_mode = "module")
    (hparse : parse_module_runner tool.runner = .ok (md, fn)) :
    buildCommand py tool vals = .ok (moduleArgvSpecShape py md fn vals) ∧
      (moduleArgvSpecShape py md fn vals).take 6 = [py, "-u", "-m", md, "--func", fn] := by
  constructor
  · simp [buildCommand, hmode, hparse, moduleArgvSpecShape]
  · simp [moduleArgvSpecShape]

/-- Witness for C1 at a concrete tool and value bag. -/
theorem c1_module_argv_shape_witness :
    buildCommand "py" { name := "t", runner_mode := "module", runner := "pkg.mod:fn" }
      [("x", .vstr "1"), ("flag", .vbool true), ("_output_dir", .vstr "/out")]
      = .ok ["py", "-u", "-m", "pkg.mod", "--func", "fn",
             "--x", "1", "--flag", "True", "--output_dir", "/out"] := by
  have h := c1_module_argv_shape "py"
    { name := "t", runner_mode := "module", runner := "pkg.mod:fn" }
    [("x", .vstr "1"), ("flag", .vbool true), ("_output_dir", .vstr "/out")]
    "pkg.mod" "fn" rfl (by decide)
  rw [h.1]; decide

/-! ## Claim C6: module-target validation -/

/-- C6 counterexample: the claim says a target whose module part or entry
part is empty after trimming is rejected, but the target `":"` (both
parts empty) compiles successfully in module mode. -/
theorem c6_empty_parts_accepted :
    parse_module_runner ":" = .ok ("", "") ∧
      buildCommand "py" { name := "t", runner_mode := "module", runner := ":" } []
        = .ok ["py", "-u", "-m", "", "--func", ""] := by
  decide

/-- C6 amended: in module mode, compilation fails with the validation
error exactly when the invocation target contains no `:`; the two parts
are *not* checked for emptiness. -/
theorem c6_module_target_validation (py : String) (tool : ToolSpec)
    (vals : List (String × PVal)) (hmode : tool.runner_mode = "module") :
    (∃ cmd, buildCommand py tool vals = .ok cmd) ↔
      tool.runner.data.contains ':' = true := by
  constructor
  · rintro ⟨cmd, hcmd⟩
    by_contra hns
    rw [buildCommand, if_pos hmode, parse_module_runner, if_neg hns] at hcmd
    exact Except.noConfusion hcmd
  · intro h
    have hp : parse_module_runner tool.runner
        = .ok (pyStrip (pySplitFirst ':' tool.runner).1,
               pyStrip (pySplitFirst ':' tool.runner).2) := by
      rw [parse_module_runner, if_pos h]
    exact ⟨_, by rw [buildCommand, if_pos hmode, hp]⟩

/-- Witness for C6 (amended) at a concrete module-mode tool. -/
theorem c6_module_target_validation_witness :
    (∃ cmd, buildCommand "py" { name := "t", runner_mode := "module", runner := "a:b" } []
      = .ok cmd) ∧
    ¬ ∃ cmd, buildCommand "py" { name := "t", runner_mode := "module", runner := "ab" } []
      = .ok cmd := by
  constructor
  · exact (c6_module_target_validation "py"
      { name := "t", runner_mode := "module", runner := "a:b" } [] rfl).mpr (by decide)
  · intro h
    have := (c6_module_target_validation "py"
      { name := "t", runner_mode := "module", runner := "ab" } [] rfl).mp h
    simp at this

/-! ## Claim C4: command-mode tokenization -/

/-- C4: in command-line mode, after placeholder substitution the compiler
tokenizes the substituted string by shell-style word splitting — the
produced vector is exactly `shlex.split` of the substituted string (hence
has the same number of tokens as its shell-words); a quoted run survives
substitution as a single token with quotes stripped even when the value
contains spaces, and an unquoted substituted value containing spaces
produces multiple tokens. -/
theorem c4_command_mode_tokenization :
    (∀ (py : String) (tool : ToolSpec) (vals : List (String × PVal)) (s : String),
        tool.runner_mode = "command" → tool.runner ≠ "" →
        pyFormat tool.runner (phLookup py tool vals) = .ok s →
        buildCommand py tool vals = shlexSplit s ∧
          ∀ toks words, buildCommand py tool vals = .ok toks →
            shlexSplit s = .ok words → toks.length = words.length) ∧
    buildCommand "py" { name := "t", runner_mode := "command", runner := "--name \"{name}\"" }
        [("name", .vstr "a b")] = .ok ["--name", "a b"] ∧
    buildCommand "py" { name := "t", runner_mode := "command", runner := "--in {path}" }
        [("path", .vstr "/tmp/a b")] = .ok ["--in", "/tmp/a", "b"] := by
  refine ⟨?_, by decide, by decide⟩
  intro py tool vals s hmode hne hfmt
  have hb : buildCommand py tool vals = shlexSplit s := by
    simp [buildCommand, hmode, hne, hfmt]
  refine ⟨hb, ?_⟩
  intro toks words h1 h2
  rw [hb, h2] at h1
  cases h1
  rfl

/-- Witness for C4 at a concrete command-mode tool. -/
theorem c4_command_mode_tokenization_witness :
    buildCommand "py" { name := "t", runner_mode := "command", runner := "-a {x}" }
      [("x", .vstr "v")] = shlexSplit "-a v" :=
  (c4_command_mode_tokenization.1 "py"
    { name := "t", runner_mode := "command", runner := "-a {x}" }
    [("x", .vstr "v")] "-a v" rfl (by decide) (by decide)).1

/-! ## Claim C5: command-mode validation -/

/-- If compilation raises, `_on_run` shows the error and returns: no
pending command exists, so no process is spawned. -/
theorem onRun_none_of_buildError (py : String) (tool : ToolSpec)
    (vals : List (String × PVal)) (e : String)
    (hbuild : buildCommand py tool vals = .error e) :
    onRun py tool vals = none := by
  rw [onRun]
  split
  · rfl
  · rw [hbuild]

/-- C5 counterexample: the template `'` (one unterminated single quote)
is non-empty and references no placeholder at all — so all of its
placeholders are declared — yet compilation fails (with the shell
tokenizer's `No closing quotation` error), contradicting "compilation
succeeds for every template whose placeholders are all declared". -/
theorem c5_unbalanced_quote_fails :
    parseTemplate ("\x27" : String).data = some [Seg.lit '\x27'] ∧
    buildCommand "py" { name := "t", runner_mode := "command", runner := "\x27" } []
      = .error "No closing quotation" := by
  decide

/-- C5 amended: in command-line mode (i) a non-empty template whose
placeholders are all declared always substitutes successfully, and
compiles successfully whenever the substituted string is also
shell-tokenizable (balanced quotes, no trailing escape); (ii) an empty
template fails with the empty-template error; (iii) an undeclared
placeholder fails with an error naming the missing key; and in every
failure case `_on_run` produces no pending command, so no process is
spawned. -/
theorem c5_command_mode_validation :
    (∀ (py : String) (tool : ToolSpec) (vals : List (String × PVal)) (segs : List Seg),
        tool.runner_mode = "command" → tool.runner ≠ "" →
        parseTemplate tool.runner.data = some segs →
        (∀ nm, Seg.hole nm ∈ segs → (phLookup py tool vals nm).isSome) →
        ∃ s, pyFormat tool.runner (phLookup py tool vals) = .ok s ∧
          buildCommand py tool vals = shlexSplit s ∧
          ∀ toks, shlexSplit s = .ok toks → buildCommand py tool vals = .ok toks) ∧
    (∀ (py : String) (tool : ToolSpec) (vals : List (String × PVal)),
        tool.runner_mode = "command" → tool.runner = "" →
        buildCommand py tool vals = .error "Command template is empty." ∧
          onRun py tool vals = none) ∧
    (∀ (py : String) (tool : ToolSpec) (vals : List (String × PVal))
        (pre : List Seg) (k : String) (rest : List Seg),
        tool.runner_mode = "command" → tool.runner ≠ "" →
        parseTemplate tool.runner.data = some (pre ++ Seg.hole k :: rest) →
        (∀ nm, Seg.hole nm ∈ pre → (phLookup py tool vals nm).isSome) →
        phLookup py tool vals k = none →
        buildCommand py tool vals = .error (missingKeyMsg k) ∧
          onRun py tool vals = none) := by
  refine ⟨?_, ?_, ?_⟩
  · intro py tool vals segs hmode hne hparse hdecl
    obtain ⟨s, hs⟩ := renderSegs_ok_of_declared (phLookup py tool vals) segs hdecl
    have hfmt : pyFormat tool.runner (phLookup py tool vals) = .ok s := by
      rw [pyFormat, hparse]; exact hs
    refine ⟨s, hfmt, ?_, ?_⟩
    · simp [buildCommand, hmode, hne, hfmt]
    · intro toks htoks
      simp [buildCommand, hmode, hne, hfmt, htoks]
  · intro py tool vals hmode hempty
    have hb : buildCommand py tool vals = .error "Command template is empty." := by
      simp [buildCommand, hmode, hempty]
    exact ⟨hb, onRun_none_of_buildError py tool vals _ hb⟩
  · intro py tool vals pre k rest hmode hne hparse hdecl hk
    have hfmt : pyFormat tool.runner (phLookup py tool vals)
        = .error (missingKeyMsg k) := by
      rw [pyFormat, hparse]
      exact renderSegs_error_at_first_missing (phLookup py tool vals) pre k rest hdecl hk
    have hb : buildCommand py tool vals = .error (missingKeyMsg k) := by
      simp [buildCommand, hmode, hne, hfmt]
    exact ⟨hb, onRun_none_of_buildError py tool vals _ hb⟩

/-- Witness for C5 (amended): a template referencing the undeclared
placeholder `miss` fails with an error naming it, and no command is
produced. -/
theorem c5_command_mode_validation_witness :
    buildCommand "py" { name := "t", runner_mode := "command", runner := "{python} {miss}" } []
      = .error (missingKeyMsg "miss") ∧
    onRun "py" { name := "t", runner_mode := "command", runner := "{python} {miss}" } []
      = none := by
  refine c5_command_mode_validation.2.2 "py"
    { name := "t", runner_mode := "command", runner := "{python} {miss}" } []
    [Seg.hole "python", Seg.lit ' '] "miss" [] rfl (by decide) (by decide) ?_ (by decide)
  intro nm hm
  simp only [List.mem_cons, List.not_mem_nil, or_false] at hm
  rcases hm with h | h
  · cases h; decide
  · exact Seg.noConfusion h

theorem countP_lineEv_map (ls : List String) :
    (ls.map PEvent.lineEv).countP isFinishedEv = 0 := by
  induction ls with
  | nil => rfl
  | cons s rest ih => simp [List.countP_cons, isFinishedEv, ih]

/-- C2 counterexample: the claim says the `-1` sentinel marks "the
process never started", but an exception after a successful spawn (for
example a decode error while reading the merged stream) also produces the
sentinel-coded completion, so `-1` does not imply the process never
started. -/
theorem c2_sentinel_after_launch :
    ¬ (∀ o : ChildOutcome, PEvent.finishedEv (-1) ∈ runEvents o → launched o = false) := by
  intro h
  have := h (.midFail [] "UnicodeDecodeError") (by decide)
  simp [launched] at this

/-- C2 amended: every call to `run()` emits exactly one `finished` event,
it is the last event emitted, and it carries the child's real exit code
when the stream pump and `wait()` complete; whenever the `try` body
raises — a spawn failure, or any mid-stream failure after a successful
spawn — the error channel fires and is followed by a `finished(-1)`
completion. -/
theorem c2_finished_exactly_once (o : ChildOutcome) :
    (runEvents o).countP isFinishedEv = 1 ∧
    (runEvents o).getLast? = some (.finishedEv (exitReport o)) ∧
    (runEvents o).head? = some .startedEv ∧
    (∀ ls rc, o = .completes ls rc →
      runEvents o = .startedEv :: (ls.map PEvent.lineEv ++ [.finishedEv rc])) ∧
    (∀ m, o = .spawnFail m →
      runEvents o = [.startedEv, .errorEv m, .finishedEv (-1)]) ∧
    (∀ pre m, o = .midFail pre m →
      runEvents o = .startedEv :: (pre.map PEvent.lineEv ++ [.errorEv m, .finishedEv (-1)])) := by
  refine ⟨?_, ?_, ?_, ?_, ?_, ?_⟩
  · cases o with
    | spawnFail m => simp [runEvents, List.countP_cons, isFinishedEv]
    | completes ls rc =>
      simp [runEvents, List.countP_cons, List.countP_append, isFinishedEv,
        countP_lineEv_map ls]
    | midFail pre m =>
      simp [runEvents, List.countP_cons, List.countP_append, isFinishedEv,
        countP_lineEv_map pre]
  · cases o with
    | spawnFail m => rfl
    | completes ls rc =>
      have hshape : runEvents (.completes ls rc)
          = (PEvent.startedEv :: ls.map PEvent.lineEv) ++ [.finishedEv rc] := by
        simp [runEvents]
      rw [hshape, List.getLast?_concat]; rfl
    | midFail pre m =>
      have hshape : runEvents (.midFail pre m)
          = ((PEvent.startedEv :: pre.map PEvent.lineEv) ++ [.errorEv m])
              ++ [.finishedEv (-1)] := by
        simp [runEvents]
      rw [hshape, List.getLast?_concat]; rfl
  · cases o <;> rfl
  · rintro ls rc rfl; rfl
  · rintro m rfl; rfl
  · rintro pre m rfl; rfl

/-- Witness for C2 (amended) at a concrete spawn failure. -/
theorem c2_finished_exactly_once_witness :
    runEvents (.spawnFail "No such file or directory")
      = [.startedEv, .errorEv "No such file or directory", .finishedEv (-1)] :=
  (c2_finished_exactly_once (.spawnFail "No such file or directory")).2.2.2.2.1
    "No such file or directory" rfl

/-- C3 counterexample: when the soft-interrupt delivery raises and the
child has not exited, the swallowed exception also skips the forced-kill
step, so "then forcibly kills the child if it has not exited" is false as
stated. -/
theorem c3_signal_error_skips_kill :
    (procStop false (some { softRaises := true, exitedInGrace := false })).1
      = [StopAction.terminateSig] ∧
    StopAction.kill ∉
      (procStop false (some { softRaises := true, exitedInGrace := false })).1 := by
  decide

/-- C3 amended: `stop()` never raises to the caller; on the
exception-free path it issues the platform soft interrupt, sleeps the
fixed 0.4 s (Windows) / 0.5 s (POSIX) grace period, and then kills the
child — unconditionally on Windows, exactly when it has not exited on
POSIX; if the soft-interrupt delivery raises, the exception is swallowed
and the remaining steps, including the kill, are skipped. -/
theorem c3_stop_protocol (windows : Bool) (proc : Option ChildView) :
    (procStop windows proc).2 = none ∧
    (∀ c, proc = some c → c.softRaises = false →
      (procStop windows proc).1 =
        (if windows then StopAction.softBreak else StopAction.terminateSig)
          :: StopAction.sleepMs (if windows then 400 else 500)
          :: (if windows = true ∨ c.exitedInGrace = false then [StopAction.kill] else [])) ∧
    (∀ c, proc = some c → c.softRaises = true →
      (procStop windows proc).1 =
        [if windows then StopAction.softBreak else StopAction.terminateSig]) := by
  refine ⟨?_, ?_, ?_⟩
  · cases proc <;> rfl
  · rintro c rfl hsr
    cases windows <;> cases hex : c.exitedInGrace <;>
      simp [procStop, stopBody, hsr, hex]
  · rintro c rfl hsr
    cases windows <;> simp [procStop, stopBody, hsr]

/-- Witness for C3 (amended) at a concrete POSIX stop of a
non-responsive child. -/
theorem c3_stop_protocol_witness :
    (procStop false (some { softRaises := false, exitedInGrace := false })).2 = none ∧
    (procStop false (some { softRaises := false, exitedInGrace := false })).1
      = [StopAction.terminateSig, StopAction.sleepMs 500, StopAction.kill] := by
  have h := c3_stop_protocol false (some { softRaises := false, exitedInGrace := false })
  refine ⟨h.1, ?_⟩
  rw [h.2.1 { softRaises := false, exitedInGrace := false } rfl rfl]
  rfl

/-! ## String toolkit lemmas -/

theorem strMk_data (s : String) : (⟨s.data⟩ : String) = s := by
  cases s; rfl

theorem dropWhile_idem (p : Char → Bool) (l : List Char) :
    (l.dropWhile p).dropWhile p = l.dropWhile p := by
  induction l with
  | nil => rfl
  | cons c rest ih =>
    cases h : p c
    · simp [List.dropWhile_cons, h]
    · simp [List.dropWhile_cons, h, ih]

theorem dropWhile_fix_head (p : Char → Bool) (c : Char) (t : List Char)
    (hfix : (c :: t).dropWhile p = c :: t) : p c = false := by
  cases hpc : p c
  · rfl
  · rw [List.dropWhile_cons, if_pos hpc] at hfix
    have hle : (t.dropWhile p).length ≤ t.length :=
      ((List.dropWhile_suffix p).sublist).length_le
    rw [hfix] at hle
    simp at hle

theorem stripChars_eq_trim (l : List Char) :
    stripChars l = ((l.dropWhile isPySpace).reverse.dropWhile isPySpace).reverse := rfl

theorem trimEnd_pre (l : List Char) :
    (l.reverse.dropWhile isPySpace).reverse <+: l := by
  rw [← List.reverse_suffix, List.reverse_reverse]
  exact List.dropWhile_suffix isPySpace

theorem stripChars_dropWhile_fix (l : List Char) :
    (stripChars l).dropWhile isPySpace = stripChars l := by
  set m := l.dropWhile isPySpace with hm
  have hmfix : m.dropWhile isPySpace = m := by rw [hm]; exact dropWhile_idem _ l
  have hpre : stripChars l <+: m := by
    rw [stripChars_eq_trim, ← hm]
    exact trimEnd_pre m
  cases hs : stripChars l with
  | nil => rfl
  | cons c tl =>
    rw [hs] at hpre
    rcases hpre with ⟨suf, hsuf⟩
    have hca : m = c :: (tl ++ suf) := by rw [← hsuf]; rfl
    have hc : isPySpace c = false := by
      apply dropWhile_fix_head isPySpace c (tl ++ suf)
      rw [← hca]; exact hmfix
    rw [List.dropWhile_cons, hc]
    simp

theorem stripChars_idem (l : List Char) : stripChars (stripChars l) = stripChars l := by
  have h1 : stripChars (stripChars l)
      = ((stripChars l).reverse.dropWhile isPySpace).reverse := by
    rw [stripChars_eq_trim (stripChars l), stripChars_dropWhile_fix]
  rw [h1, stripChars_eq_trim l]
  rw [List.reverse_reverse, dropWhile_idem]

theorem pyStrip_idem (s : String) : pyStrip (pyStrip s) = pyStrip s := by
  show (⟨stripChars (pyStrip s).data⟩ : String) = ⟨stripChars s.data⟩
  have : (pyStrip s).data = stripChars s.data := rfl
  rw [this, stripChars_idem]

theorem mem_stripChars {c : Char} {l : List Char} (h : c ∈ stripChars l) : c ∈ l := by
  have h1 : c ∈ l.dropWhile isPySpace := (trimEnd_pre _).subset h
  exact ((List.dropWhile_suffix isPySpace).subset) h1

theorem strMem_iff (x : String) (l : List String) : strMem x l = true ↔ x ∈ l := by
  simp only [strMem, List.any_eq_true, decide_eq_true_eq]
  constructor
  · rintro ⟨y, hy, rfl⟩; exact hy
  · intro hx; exact ⟨x, hx, rfl⟩

/-! ## Split/join round-trip lemmas -/

theorem splitChar_ne_nil (sep : Char) (l : List Char) : splitChar sep l ≠ [] := by
  cases l with
  | nil => simp [splitChar]
  | cons c rest =>
    simp only [splitChar]
    cases h : splitChar sep rest with
    | nil => simp
    | cons hd tl => by_cases hc : c = sep <;> simp [hc]

theorem splitChar_single (sep : Char) (x : List Char) (h : sep ∉ x) :
    splitChar sep x = [x] := by
  induction x with
  | nil => rfl
  | cons c rest ih =>
    rw [List.mem_cons, not_or] at h
    obtain ⟨h1, h2⟩ := h
    have hc : ¬ c = sep := fun hcc => h1 hcc.symm
    simp only [splitChar, ih h2]
    simp [hc]

theorem splitChar_sep_cons (sep : Char) (x rest : List Char) (h : sep ∉ x) :
    splitChar sep (x ++ sep :: rest) = x :: splitChar sep rest := by
  induction x with
  | nil =>
    simp only [List.nil_append, splitChar]
    cases hr : splitChar sep rest with
    | nil => exact absurd hr (splitChar_ne_nil sep rest)
    | cons hd tl => simp
  | cons c x ih =>
    rw [List.mem_cons, not_or] at h
    obtain ⟨h1, h2⟩ := h
    have hc : ¬ c = sep := fun hcc => h1 hcc.symm
    have hsp := ih h2
    simp only [List.cons_append, splitChar, List.append_eq]
    rw [hsp]
    simp [hc]

theorem splitChar_joinSep (sep : Char) (L : List (List Char))
    (hL : ∀ x ∈ L, sep ∉ x) (hne : L ≠ []) :
    splitChar sep (joinSep sep L) = L := by
  induction L with
  | nil => exact absurd rfl hne
  | cons x L ih =>
    cases L with
    | nil =>
      show splitChar sep (joinSep sep [x]) = [x]
      exact splitChar_single sep x (hL x (List.mem_cons_self x []))
    | cons y L2 =>
      show splitChar sep (x ++ sep :: joinSep sep (y :: L2)) = x :: y :: L2
      rw [splitChar_sep_cons sep x _ (hL x (List.mem_cons_self x _))]
      rw [ih (fun z hz => hL z (List.mem_cons_of_mem x hz)) (List.cons_ne_nil y L2)]

theorem mem_splitChar {sep : Char} {l x : List Char} (h : x ∈ splitChar sep l) :
    sep ∉ x := by
  induction l generalizing x with
  | nil =>
    simp [splitChar] at h
    simp [h]
  | cons c rest ih =>
    rcases hsp : splitChar sep rest with _ | ⟨hd, tl⟩
    · exact absurd hsp (splitChar_ne_nil sep rest)
    · simp only [splitChar, hsp] at h
      by_cases hc : c = sep
      · rw [if_pos hc] at h
        rcases List.mem_cons.mp h with rfl | h3
        · exact List.not_mem_nil sep
        · exact ih (hsp ▸ h3)
      · rw [if_neg hc] at h
        rcases List.mem_cons.mp h with rfl | h3
        · intro hmem
          rcases List.mem_cons.mp hmem with rfl | h4
          · exact hc rfl
          · have : hd ∈ splitChar sep rest := by rw [hsp]; exact List.mem_cons_self hd tl
            exact ih this h4
        · have : x ∈ splitChar sep rest := by
            rw [hsp]; exact List.mem_cons_of_mem hd h3
          exact ih this

/-! ## String-level split/join lemmas -/

theorem pyStrip_data (s : String) : (pyStrip s).data = stripChars s.data := rfl

theorem mem_data_pyStrip {c : Char} {s : String} (h : c ∈ (pyStrip s).data) :
    c ∈ s.data := mem_stripChars (pyStrip_data s ▸ h)

theorem strNoComma_iff (x : String) : strNoComma x = true ↔ ',' ∉ x.data := by
  simp only [strNoComma, Bool.not_eq_true', List.any_eq_false, decide_eq_true_eq]
  constructor
  · intro h hc; exact h ',' hc rfl
  · intro h c hc hcc; exact h (hcc ▸ hc)

theorem pySplit_pyJoin (sep : Char) (items : List String)
    (hit : ∀ x ∈ items, sep ∉ x.data) (hne : items ≠ []) :
    pySplit sep (pyJoin sep items) = items := by
  show (splitChar sep (⟨joinSep sep (items.map String.data)⟩ : String).data).map
      (fun l => (⟨l⟩ : String)) = items
  have hdata : (⟨joinSep sep (items.map String.data)⟩ : String).data
      = joinSep sep (items.map String.data) := rfl
  rw [hdata]
  rw [splitChar_joinSep sep (items.map String.data) ?hmem ?hnem]
  case hmem =>
    intro x hx
    rw [List.mem_map] at hx
    obtain ⟨s, hs, rfl⟩ := hx
    exact hit s hs
  case hnem => simp [hne]
  rw [List.map_map]
  have hcomp : ∀ s ∈ items, ((fun l => (⟨l⟩ : String)) ∘ String.data) s = id s := by
    intro s _
    exact strMk_data s
  rw [List.map_congr_left hcomp, List.map_id]

theorem mem_pySplit {sep : Char} {s x : String} (h : x ∈ pySplit sep s) :
    sep ∉ x.data := by
  rw [pySplit, List.mem_map] at h
  obtain ⟨l, hl, rfl⟩ := h
  exact mem_splitChar hl

/-! ## Association-list lookup lemmas -/

theorem alist_lookup_eq_none (k : String) (l : List (String × PVal))
    (h : ∀ p ∈ l, p.1 ≠ k) : alist.lookup k l = none := by
  induction l with
  | nil => rfl
  | cons p rest ih =>
    rw [alist.lookup, if_neg (h p (List.mem_cons_self p rest))]
    exact ih (fun q hq => h q (List.mem_cons_of_mem _ hq))

theorem alist_lookup_filter (k : String) (pred : String × PVal → Bool)
    (l : List (String × PVal)) (h : ∀ p ∈ l, p.1 = k → pred p = true) :
    alist.lookup k (l.filter pred) = alist.lookup k l := by
  induction l with
  | nil => rfl
  | cons p rest ih =>
    have hrest : ∀ q ∈ rest, q.1 = k → pred q = true :=
      fun q hq => h q (List.mem_cons_of_mem _ hq)
    by_cases hk : p.1 = k
    · rw [List.filter_cons, if_pos (h p (List.mem_cons_self p rest) hk)]
      rw [alist.lookup, if_pos hk, alist.lookup, if_pos hk]
    · rw [List.filter_cons]
      cases hp : pred p
      · simp only [Bool.false_eq_true, if_false]
        rw [ih hrest, alist.lookup, if_neg hk]
      · simp only [if_true]
        rw [alist.lookup, if_neg hk, ih hrest, alist.lookup, if_neg hk]

theorem alist_lookup_append_left (k : String) (l₁ l₂ : List (String × PVal))
    (v : PVal) (h : alist.lookup k l₁ = some v) :
    alist.lookup k (l₁ ++ l₂) = some v := by
  induction l₁ with
  | nil => simp [alist.lookup] at h
  | cons p rest ih =>
    rw [alist.lookup] at h
    by_cases hk : p.1 = k
    · rw [if_pos hk] at h
      rw [List.cons_append, alist.lookup, if_pos hk]
      exact h
    · rw [if_neg hk] at h
      rw [List.cons_append, alist.lookup, if_neg hk]
      exact ih h

/-- Looking up a declared input's name in the collected bag of a form
that has a value for it finds exactly that value (declared names must be
duplicate-free). -/
theorem alist_lookup_collect_inputs (st : FormState) :
    ∀ (l : List InputSpec), (l.map InputSpec.name).Nodup →
    ∀ spec ∈ l, ∀ (f : Field) (v : PVal),
    st.fields spec.name = some f → collectOne spec.type f = some v →
    alist.lookup spec.name (l.filterMap (fun sp =>
      match st.fields sp.name with
      | none => none
      | some f2 => (collectOne sp.type f2).map (fun w => (sp.name, w)))) = some v := by
  intro l
  induction l with
  | nil => intro _ spec hmem; exact absurd hmem (List.not_mem_nil spec)
  | cons a l ih =>
    intro hnd spec hmem f v hf hcv
    rw [List.map_cons, List.nodup_cons] at hnd
    obtain ⟨hna, hndl⟩ := hnd
    rcases List.mem_cons.mp hmem with rfl | hmem2
    · simp only [List.filterMap_cons, hf, hcv, Option.map_some']
      rw [alist.lookup, if_pos rfl]
    · have hane : a.name ≠ spec.name := by
        intro hc
        exact hna (hc ▸ List.mem_map_of_mem InputSpec.name hmem2)
      cases hfa : st.fields a.name with
      | none =>
        simp only [List.filterMap_cons, hfa]
        exact ih hndl spec hmem2 f v hf hcv
      | some f2 =>
        cases hca : collectOne a.type f2 with
        | none =>
          simp only [List.filterMap_cons, hfa, hca, Option.map_none']
          exact ih hndl spec hmem2 f v hf hcv
        | some w =>
          simp only [List.filterMap_cons, hfa, hca, Option.map_some']
          rw [alist.lookup, if_neg hane]
          exact ih hndl spec hmem2 f v hf hcv

/-! ## Checked-items and collected-lines lemmas -/

theorem strMem_false_iff (x : String) (l : List String) :
    strMem x l = false ↔ x ∉ l := by
  constructor
  · intro h hm
    rw [(strMem_iff x l).mpr hm] at h
    cases h
  · intro h
    cases hs : strMem x l
    · rfl
    · exact absurd ((strMem_iff x l).mp hs) h

theorem checkedItems_map (cs : List String) (p : String → Bool) :
    checkedItems cs (cs.map p) = cs.filter p := by
  induction cs with
  | nil => rfl
  | cons c cs ih =>
    simp only [List.map_cons, checkedItems, List.filter_cons]
    cases hp : p c
    · simp [ih]
    · simp [ih]

theorem checkedItems_subset :
    ∀ (cs : List String) (bs : List Bool), ∀ c ∈ checkedItems cs bs, c ∈ cs := by
  intro cs
  induction cs with
  | nil =>
    intro bs c hc
    cases bs <;> exact absurd hc (List.not_mem_nil c)
  | cons a cs ih =>
    intro bs c hc
    cases bs with
    | nil => exact absurd hc (List.not_mem_nil c)
    | cons b bs =>
      cases b with
      | false => exact List.mem_cons_of_mem a (ih bs c hc)
      | true =>
        rcases List.mem_cons.mp hc with rfl | h2
        · exact List.mem_cons_self c cs
        · exact List.mem_cons_of_mem a (ih bs c h2)

theorem filter_mem_checkedItems (cs : List String) (bs : List Bool) (hnd : cs.Nodup) :
    cs.filter (fun c => strMem c (checkedItems cs bs)) = checkedItems cs bs := by
  induction cs generalizing bs with
  | nil => rfl
  | cons a cs ih =>
    rw [List.nodup_cons] at hnd
    obtain ⟨hna, hnd2⟩ := hnd
    cases bs with
    | nil =>
      show (a :: cs).filter (fun c => strMem c []) = []
      rw [List.filter_eq_nil_iff]
      intro c _
      simp [strMem]
    | cons b bs =>
      cases b with
      | true =>
        show (a :: cs).filter (fun c => strMem c (a :: checkedItems cs bs))
            = a :: checkedItems cs bs
        rw [List.filter_cons,
          if_pos ((strMem_iff a _).mpr (List.mem_cons_self a _))]
        congr 1
        have hcong : ∀ c ∈ cs,
            strMem c (a :: checkedItems cs bs) = strMem c (checkedItems cs bs) := by
          intro c hcm
          have hca : c ≠ a := fun hcc => hna (hcc ▸ hcm)
          cases hm : strMem c (checkedItems cs bs)
          · apply (strMem_false_iff c _).mpr
            intro hmem
            rcases List.mem_cons.mp hmem with rfl | h2
            · exact hca rfl
            · exact (strMem_false_iff c _).mp hm h2
          · exact (strMem_iff c _).mpr
              (List.mem_cons_of_mem a ((strMem_iff c _).mp hm))
        rw [List.filter_congr hcong]
        exact ih bs hnd2
      | false =>
        show (a :: cs).filter (fun c => strMem c (checkedItems cs bs))
            = checkedItems cs bs
        rw [List.filter_cons]
        have ha : strMem a (checkedItems cs bs) = false := by
          apply (strMem_false_iff a _).mpr
          intro hmem
          exact hna (checkedItems_subset cs bs a hmem)
        rw [ha]
        simp only [Bool.false_eq_true, if_false]
        exact ih bs hnd2

theorem mem_collectLines {txt x : String} (h : x ∈ collectLines txt) :
    pyStrip x = x ∧ x ≠ "" ∧ '\n' ∉ x.data := by
  rw [collectLines] at h
  have hne : x ≠ "" := by simpa using List.of_mem_filter h
  have h2 := List.mem_of_mem_filter h
  rw [List.mem_map] at h2
  obtain ⟨y, hy, rfl⟩ := h2
  refine ⟨pyStrip_idem y, hne, ?_⟩
  intro hmem
  exact (mem_pySplit hy) (mem_data_pyStrip hmem)

/-- Splitting a comma-join back apart, stripping and dropping empties
recovers exactly the original items when they are stripped, non-empty and
comma-free.  This is the shared normalisation of the multienum and list
branches of `_apply_params`. -/
theorem applyItems_join (L : List String)
    (hL : ∀ x ∈ L, pyStrip x = x ∧ x ≠ "" ∧ ',' ∉ x.data) :
    applyItems (.vstr (pyJoin ',' L)) = L := by
  by_cases hne : L = []
  · subst hne; decide
  · show ((pySplit ',' (pyJoin ',' L)).map pyStrip).filter (fun x => x ≠ "") = L
    rw [pySplit_pyJoin ',' L (fun x hx => (hL x hx).2.2) hne]
    have hmap : L.map pyStrip = L :=
      (List.map_congr_left (fun x hx => ((hL x hx).1 : pyStrip x = id x))).trans
        (List.map_id L)
    rw [hmap, List.filter_eq_self.mpr (fun a ha => by
      simpa using (hL a ha).2.1)]

/-- Joining the collected lines with newlines and re-collecting recovers
the same lines. -/
theorem collectLines_join (L : List String)
    (hL : ∀ x ∈ L, pyStrip x = x ∧ x ≠ "" ∧ '\n' ∉ x.data) :
    collectLines (pyJoin ('\n') L) = L := by
  by_cases hne : L = []
  · subst hne; decide
  · show ((pySplit ('\n') (pyJoin ('\n') L)).map pyStrip).filter
        (fun x => x ≠ "") = L
    rw [pySplit_pyJoin ('\n') L (fun x hx => (hL x hx).2.2) hne]
    have hmap : L.map pyStrip = L :=
      (List.map_congr_left (fun x hx => ((hL x hx).1 : pyStrip x = id x))).trans
        (List.map_id L)
    rw [hmap, List.filter_eq_self.mpr (fun a ha => by
      simpa using (hL a ha).2.1)]

/-! ## Per-field round-trip through the codec -/

/-- Applying the value collected from a well-formed field back to that
field succeeds and collects to the same value again.  This is the heart
of the export/import round-trip: each kind's apply branch inverts its
collect branch (strings because `strip` is idempotent; numbers because
the spin boxes store already-clamped, already-rounded values; enums
because `findText` of the current text re-selects it; multienum and list
because comma-join/split cancel on comma-free, stripped, non-empty
items; dates because a valid date's canonical rendering re-parses;
booleans by the `True`/`False` literal forms). -/
theorem applyOne_roundtrip (t : String) (f : Field) (v : PVal)
    (hwf : fieldWF t f = true) (hc : collectOne t f = some v) :
    ∃ fNew, applyOne t f v = .ok fNew ∧ collectOne t fNew = some v := by
  by_cases h1 : stringishType t = true
  · cases f with
    | fline s =>
      simp only [collectOne, h1, if_true, Option.some.injEq] at hc
      subst hc
      refine ⟨.fline (pyStrip s), ?_, ?_⟩
      · by_cases hs : pyStrip s = "" <;>
          simp [applyOne, h1, pyTruthy, pyStr, hs]
      · simp [collectOne, h1, pyStrip_idem]
    | fint n => simp [fieldWF, h1] at hwf
    | ffloat q => simp [fieldWF, h1] at hwf
    | fenum cur cs => simp [fieldWF, h1] at hwf
    | fmulti cs bs => simp [fieldWF, h1] at hwf
    | fdate s => simp [fieldWF, h1] at hwf
    | ftoggle b => simp [fieldWF, h1] at hwf
    | flist txt => simp [fieldWF, h1] at hwf
  · by_cases h2 : t = "int"
    · subst h2
      cases f with
      | fint n =>
        have hfix : spinSet n = n := by
          simpa [fieldWF, stringishType] using hwf
        simp only [collectOne] at hc
        simp [stringishType] at hc
        subst hc
        refine ⟨.fint n, ?_, ?_⟩
        · simp [applyOne, stringishType, pyInt, Except.map, hfix]
        · simp [collectOne, stringishType]
      | fline s => simp [fieldWF, stringishType] at hwf
      | ffloat q => simp [fieldWF, stringishType] at hwf
      | fenum cur cs => simp [fieldWF, stringishType] at hwf
      | fmulti cs bs => simp [fieldWF, stringishType] at hwf
      | fdate s => simp [fieldWF, stringishType] at hwf
      | ftoggle b => simp [fieldWF, stringishType] at hwf
      | flist txt => simp [fieldWF, stringishType] at hwf
    · by_cases h3 : t = "float"
      · subst h3
        cases f with
        | ffloat q =>
          have hfix : dspinSet q = q := by
            simpa [fieldWF, stringishType] using hwf
          simp [collectOne, stringishType] at hc
          subst hc
          refine ⟨.ffloat q, ?_, ?_⟩
          · simp [applyOne, stringishType, pyFloat, Except.map, hfix]
          · simp [collectOne, stringishType]
        | fline s => simp [fieldWF, stringishType] at hwf
        | fint n => simp [fieldWF, stringishType] at hwf
        | fenum cur cs => simp [fieldWF, stringishType] at hwf
        | fmulti cs bs => simp [fieldWF, stringishType] at hwf
        | fdate s => simp [fieldWF, stringishType] at hwf
        | ftoggle b => simp [fieldWF, stringishType] at hwf
        | flist txt => simp [fieldWF, stringishType] at hwf
      · by_cases h4 : t = "enum"
        · subst h4
          cases f with
          | fenum cur cs =>
            simp [collectOne, stringishType] at hc
            subst hc
            refine ⟨.fenum cur cs, ?_, ?_⟩
            · simp [applyOne, stringishType, pyStr]
            · simp [collectOne, stringishType]
          | fline s => simp [fieldWF, stringishType] at hwf
          | fint n => simp [fieldWF, stringishType] at hwf
          | ffloat q => simp [fieldWF, stringishType] at hwf
          | fmulti cs bs => simp [fieldWF, stringishType] at hwf
          | fdate s => simp [fieldWF, stringishType] at hwf
          | ftoggle b => simp [fieldWF, stringishType] at hwf
          | flist txt => simp [fieldWF, stringishType] at hwf
        · by_cases h5 : t = "multienum"
          · subst h5
            cases f with
            | fmulti cs bs =>
              have hwf2 : cs.Nodup ∧ ∀ x ∈ checkedItems cs bs, goodItem x = true := by
                simpa [fieldWF, stringishType, Bool.and_eq_true, List.all_eq_true]
                  using hwf
              obtain ⟨hnd, hall⟩ := hwf2
              have hprops : ∀ x ∈ checkedItems cs bs,
                  pyStrip x = x ∧ x ≠ "" ∧ ',' ∉ x.data := by
                intro x hx
                have hg := hall x hx
                simp only [goodItem, Bool.and_eq_true, decide_eq_true_eq] at hg
                exact ⟨hg.1.2, hg.2, (strNoComma_iff x).mp hg.1.1⟩
              simp [collectOne, stringishType] at hc
              subst hc
              have hitems :
                  applyItems (PVal.vstr (pyJoin ',' (checkedItems cs bs)))
                    = checkedItems cs bs :=
                applyItems_join _ hprops
              refine ⟨.fmulti cs (cs.map (fun c =>
                strMem c (applyItems (PVal.vstr (pyJoin ',' (checkedItems cs bs)))))),
                ?_, ?_⟩
              · simp [applyOne, stringishType, pyStr]
              · simp only [collectOne, stringishType]
                simp [hitems, checkedItems_map, filter_mem_checkedItems cs bs hnd]
            | fline s => simp [fieldWF, stringishType] at hwf
            | fint n => simp [fieldWF, stringishType] at hwf
            | ffloat q => simp [fieldWF, stringishType] at hwf
            | fenum cur cs => simp [fieldWF, stringishType] at hwf
            | fdate s => simp [fieldWF, stringishType] at hwf
            | ftoggle b => simp [fieldWF, stringishType] at hwf
            | flist txt => simp [fieldWF, stringishType] at hwf
          · by_cases h6 : t = "date"
            · subst h6
              cases f with
              | fdate s =>
                have hcanon : isCanonicalDateStr s = true := by
                  simpa [fieldWF, stringishType] using hwf
                simp [collectOne, stringishType] at hc
                subst hc
                refine ⟨.fdate s, ?_, ?_⟩
                · simp [applyOne, stringishType, pyStr, hcanon]
                · simp [collectOne, stringishType]
              | fline s => simp [fieldWF, stringishType] at hwf
              | fint n => simp [fieldWF, stringishType] at hwf
              | ffloat q => simp [fieldWF, stringishType] at hwf
              | fenum cur cs => simp [fieldWF, stringishType] at hwf
              | fmulti cs bs => simp [fieldWF, stringishType] at hwf
              | ftoggle b => simp [fieldWF, stringishType] at hwf
              | flist txt => simp [fieldWF, stringishType] at hwf
            · by_cases h7 : t = "toggle"
              · subst h7
                cases f with
                | ftoggle b =>
                  simp [collectOne, stringishType] at hc
                  subst hc
                  refine ⟨.ftoggle b, ?_, ?_⟩
                  · cases b <;> simp [applyOne, stringishType, pyStr, pyStrip,
                      pyLower, stripChars, strMem, isPySpace]
                  · simp [collectOne, stringishType]
                | fline s => simp [fieldWF, stringishType] at hwf
                | fint n => simp [fieldWF, stringishType] at hwf
                | ffloat q => simp [fieldWF, stringishType] at hwf
                | fenum cur cs => simp [fieldWF, stringishType] at hwf
                | fmulti cs bs => simp [fieldWF, stringishType] at hwf
                | fdate s => simp [fieldWF, stringishType] at hwf
                | flist txt => simp [fieldWF, stringishType] at hwf
              · by_cases h8 : t = "list"
                · subst h8
                  cases f with
                  | flist txt =>
                    have hall : ∀ x ∈ collectLines txt, strNoComma x = true := by
                      simpa [fieldWF, stringishType, List.all_eq_true] using hwf
                    have hprops : ∀ x ∈ collectLines txt,
                        pyStrip x = x ∧ x ≠ "" ∧ ',' ∉ x.data := by
                      intro x hx
                      have hm := mem_collectLines hx
                      exact ⟨hm.1, hm.2.1, (strNoComma_iff x).mp (hall x hx)⟩
                    have hprops2 : ∀ x ∈ collectLines txt,
                        pyStrip x = x ∧ x ≠ "" ∧ '\n' ∉ x.data := by
                      intro x hx
                      have hm := mem_collectLines hx
                      exact ⟨hm.1, hm.2.1, hm.2.2⟩
                    simp [collectOne, stringishType] at hc
                    subst hc
                    have hitems :
                        applyItems (PVal.vstr (pyJoin ',' (collectLines txt)))
                          = collectLines txt :=
                      applyItems_join _ hprops
                    refine ⟨.flist (pyJoin ('\n')
                        (applyItems (PVal.vstr (pyJoin ',' (collectLines txt))))), ?_, ?_⟩
                    · simp [applyOne, stringishType]
                    · simp [collectOne, stringishType, hitems,
                        collectLines_join _ hprops2]
                  | fline s => simp [fieldWF, stringishType] at hwf
                  | fint n => simp [fieldWF, stringishType] at hwf
                  | ffloat q => simp [fieldWF, stringishType] at hwf
                  | fenum cur cs => simp [fieldWF, stringishType] at hwf
                  | fmulti cs bs => simp [fieldWF, stringishType] at hwf
                  | fdate s => simp [fieldWF, stringishType] at hwf
                  | ftoggle b => simp [fieldWF, stringishType] at hwf
                · cases f with
                  | fline s =>
                    simp [collectOne, h1, h2, h3, h4, h5, h6, h7, h8] at hc
                    subst hc
                    refine ⟨.fline (pyStrip s), ?_, ?_⟩
                    · by_cases hs : pyStrip s = "" <;>
                        simp [applyOne, h1, h2, h3, h4, h5, h6, h7, h8,
                          pyTruthy, pyStr, hs]
                    · simp [collectOne, h1, h2, h3, h4, h5, h6, h7, h8, pyStrip_idem]
                  | fint n => simp [fieldWF, h1, h2, h3, h4, h5, h6, h7, h8] at hwf
                  | ffloat q => simp [fieldWF, h1, h2, h3, h4, h5, h6, h7, h8] at hwf
                  | fenum cur cs => simp [fieldWF, h1, h2, h3, h4, h5, h6, h7, h8] at hwf
                  | fmulti cs bs => simp [fieldWF, h1, h2, h3, h4, h5, h6, h7, h8] at hwf
                  | fdate s => simp [fieldWF, h1, h2, h3, h4, h5, h6, h7, h8] at hwf
                  | ftoggle b => simp [fieldWF, h1, h2, h3, h4, h5, h6, h7, h8] at hwf
                  | flist txt => simp [fieldWF, h1, h2, h3, h4, h5, h6, h7, h8] at hwf

/-! ## Lemmas about the `_apply_params` loop -/

theorem applyStep_outText (values : List (String × PVal)) (acc : FormState × List String)
    (spec : InputSpec) : (applyStep values acc spec).1.outText = acc.1.outText := by
  cases hl : alist.lookup spec.name values with
  | none => simp [applyStep, hl]
  | some v =>
    cases hf2 : acc.1.fields spec.name with
    | none => simp [applyStep, hl, hf2]
    | some f =>
      cases ha : applyOne spec.type f v with
      | ok fNew => simp [applyStep, hl, hf2, ha]
      | error e => simp [applyStep, hl, hf2, ha]

theorem applyStep_fields_ne (values : List (String × PVal)) (acc : FormState × List String)
    (spec : InputSpec) (n : String) (h : spec.name ≠ n) :
    (applyStep values acc spec).1.fields n = acc.1.fields n := by
  cases hl : alist.lookup spec.name values with
  | none => simp [applyStep, hl]
  | some v =>
    cases hf2 : acc.1.fields spec.name with
    | none => simp [applyStep, hl, hf2]
    | some f =>
      cases ha : applyOne spec.type f v with
      | ok fNew =>
        simp only [applyStep, hl, hf2, ha]
        exact if_neg (fun hc => h hc.symm)
      | error e => simp [applyStep, hl, hf2, ha]

theorem applyStep_fields_self (values : List (String × PVal)) (acc : FormState × List String)
    (spec : InputSpec) :
    (applyStep values acc spec).1.fields spec.name =
      match alist.lookup spec.name values, acc.1.fields spec.name with
      | some v, some f =>
        match applyOne spec.type f v with
        | .ok fNew => some fNew
        | .error _ => acc.1.fields spec.name
      | _, _ => acc.1.fields spec.name := by
  cases hl : alist.lookup spec.name values with
  | none => simp [applyStep, hl]
  | some v =>
    cases hf2 : acc.1.fields spec.name with
    | none => simp [applyStep, hl, hf2]
    | some f =>
      cases ha : applyOne spec.type f v with
      | ok fNew =>
        simp [applyStep, hl, hf2, ha]
      | error e => simp [applyStep, hl, hf2, ha]

theorem applyStep_fields_of_eq (values : List (String × PVal))
    (acc1 acc2 : FormState × List String) (spec : InputSpec)
    (h : acc1.1.fields spec.name = acc2.1.fields spec.name) :
    (applyStep values acc1 spec).1.fields spec.name
      = (applyStep values acc2 spec).1.fields spec.name := by
  rw [applyStep_fields_self, applyStep_fields_self, h]

theorem applyStep_log_mem (values : List (String × PVal)) (acc : FormState × List String)
    (spec : InputSpec) (x : String) (h : x ∈ acc.2) :
    x ∈ (applyStep values acc spec).2 := by
  cases hl : alist.lookup spec.name values with
  | none => simpa [applyStep, hl] using h
  | some v =>
    cases hf2 : acc.1.fields spec.name with
    | none => simpa [applyStep, hl, hf2] using h
    | some f =>
      cases ha : applyOne spec.type f v with
      | ok fNew => simpa [applyStep, hl, hf2, ha] using h
      | error e =>
        simp only [applyStep, hl, hf2, ha]
        exact List.mem_append_left _ h

theorem applyFold_outText (values : List (String × PVal)) :
    ∀ (l : List InputSpec) (acc : FormState × List String),
    (l.foldl (applyStep values) acc).1.outText = acc.1.outText := by
  intro l
  induction l with
  | nil => intro acc; rfl
  | cons a l ih =>
    intro acc
    rw [List.foldl_cons, ih (applyStep values acc a), applyStep_outText]

theorem applyFold_fields_untouched (values : List (String × PVal)) :
    ∀ (l : List InputSpec) (acc : FormState × List String) (n : String),
    (∀ spec ∈ l, spec.name ≠ n) →
    (l.foldl (applyStep values) acc).1.fields n = acc.1.fields n := by
  intro l
  induction l with
  | nil => intro acc n _; rfl
  | cons a l ih =>
    intro acc n hne
    rw [List.foldl_cons,
      ih (applyStep values acc a) n (fun spec hs => hne spec (List.mem_cons_of_mem a hs)),
      applyStep_fields_ne values acc a n (hne a (List.mem_cons_self a l))]

theorem applyFold_log_mem (values : List (String × PVal)) :
    ∀ (l : List InputSpec) (acc : FormState × List String) (x : String),
    x ∈ acc.2 → x ∈ (l.foldl (applyStep values) acc).2 := by
  intro l
  induction l with
  | nil => intro acc x h; exact h
  | cons a l ih =>
    intro acc x h
    rw [List.foldl_cons]
    exact ih (applyStep values acc a) x (applyStep_log_mem values acc a x h)

theorem applyFold_fields_char (values : List (String × PVal)) :
    ∀ (l : List InputSpec) (acc : FormState × List String),
    (l.map InputSpec.name).Nodup →
    ∀ spec ∈ l,
    (l.foldl (applyStep values) acc).1.fields spec.name
      = (applyStep values acc spec).1.fields spec.name := by
  intro l
  induction l with
  | nil => intro acc _ spec hmem; exact absurd hmem (List.not_mem_nil spec)
  | cons a l ih =>
    intro acc hnd spec hmem
    rw [List.map_cons, List.nodup_cons] at hnd
    obtain ⟨hna, hndl⟩ := hnd
    rcases List.mem_cons.mp hmem with rfl | hmem2
    · rw [List.foldl_cons]
      exact applyFold_fields_untouched values l (applyStep values acc spec) spec.name
        (fun sp hs hc => hna (hc ▸ List.mem_map_of_mem InputSpec.name hs))
    · have hane : a.name ≠ spec.name := by
        intro hc
        exact hna (hc ▸ List.mem_map_of_mem InputSpec.name hmem2)
      rw [List.foldl_cons, ih (applyStep values acc a) hndl spec hmem2]
      exact applyStep_fields_of_eq values _ acc spec
        (applyStep_fields_ne values acc a spec.name hane)

/-- Under well-formedness, `collect_values` produces a value for every
declared input. -/
theorem collectOne_isSome_of_wf (t : String) (f : Field) (hwf : fieldWF t f = true) :
    ∃ v, collectOne t f = some v := by
  by_cases h1 : stringishType t = true
  · cases f <;> simp_all [fieldWF, collectOne, h1]
  · by_cases h2 : t = "int"
    · subst h2; cases f <;> simp_all [fieldWF, collectOne, stringishType]
    · by_cases h3 : t = "float"
      · subst h3; cases f <;> simp_all [fieldWF, collectOne, stringishType]
      · by_cases h4 : t = "enum"
        · subst h4; cases f <;> simp_all [fieldWF, collectOne, stringishType]
        · by_cases h5 : t = "multienum"
          · subst h5; cases f <;> simp_all [fieldWF, collectOne, stringishType]
          · by_cases h6 : t = "date"
            · subst h6; cases f <;> simp_all [fieldWF, collectOne, stringishType]
            · by_cases h7 : t = "toggle"
              · subst h7; cases f <;> simp_all [fieldWF, collectOne, stringishType]
              · by_cases h8 : t = "list"
                · subst h8; cases f <;> simp_all [fieldWF, collectOne, stringishType]
                · cases f <;>
                    simp_all [fieldWF, collectOne, h1, h2, h3, h4, h5, h6, h7, h8]

/-! ## Claim C10: per-field, best-effort application of imported values -/

/-- C10: applying an imported record is per-field and best-effort: the
output-directory field is never touched; each declared input's final
widget state is computed independently from its own imported value —
coerced by its own kind, left unchanged when the value is missing, the
widget is missing, or the coercion raises; and when a coercion raises on
one field, the `[apply] name: error` line is logged while every other
field is still applied (the loop never raises to the caller). -/
theorem c10_apply_params_best_effort (tool : ToolSpec) (values : List (String × PVal))
    (st : FormState) (hnodup : (tool.inputs.map InputSpec.name).Nodup) :
    (applyParams tool values st).1.outText = st.outText ∧
    (∀ spec ∈ tool.inputs,
      (applyParams tool values st).1.fields spec.name =
        match alist.lookup spec.name values, st.fields spec.name with
        | some v, some f =>
          match applyOne spec.type f v with
          | .ok fNew => some fNew
          | .error _ => st.fields spec.name
        | _, _ => st.fields spec.name) ∧
    (∀ n, (∀ spec ∈ tool.inputs, spec.name ≠ n) →
      (applyParams tool values st).1.fields n = st.fields n) ∧
    (∀ (pre : List InputSpec) (spec : InputSpec) (post : List InputSpec)
        (v : PVal) (f : Field) (e : String),
      tool.inputs = pre ++ spec :: post →
      alist.lookup spec.name values = some v →
      st.fields spec.name = some f →
      applyOne spec.type f v = .error e →
      ("[apply] " ++ spec.name ++ ": " ++ e) ∈ (applyParams tool values st).2) := by
  refine ⟨applyFold_outText values tool.inputs (st, []), ?_, ?_, ?_⟩
  · intro spec hmem
    rw [applyParams, applyFold_fields_char values tool.inputs (st, []) hnodup spec hmem,
      applyStep_fields_self]
  · intro n hne
    rw [applyParams, applyFold_fields_untouched values tool.inputs (st, []) n hne]
  · intro pre spec post v f e hsplit hlv hsf hae
    have hnd2 := hnodup
    rw [hsplit, List.map_append, List.map_cons] at hnd2
    rw [List.nodup_append] at hnd2
    obtain ⟨_, _, hdisj⟩ := hnd2
    have hpre_ne : ∀ sp ∈ pre, sp.name ≠ spec.name := by
      intro sp hsp hc
      exact hdisj (hc ▸ List.mem_map_of_mem InputSpec.name hsp)
        (List.mem_cons_self spec.name _)
    rw [applyParams, hsplit, List.foldl_append, List.foldl_cons]
    have haccf : (pre.foldl (applyStep values) (st, [])).1.fields spec.name = some f := by
      rw [applyFold_fields_untouched values pre (st, []) spec.name hpre_ne]
      exact hsf
    apply applyFold_log_mem values post
    simp only [applyStep, hlv, haccf, hae]
    exact List.mem_append_right _ (List.mem_cons_self _ _)

/-- Witness for C10: a two-parameter tool where the first imported value
fails integer coercion — it is logged, and the second value is applied
anyway. -/
theorem c10_apply_params_best_effort_witness :
    ((applyParams { name := "T", inputs := [{ name := "b", type := "int" },
          { name := "a", type := "string" }] }
        [("b", .vstr "zz"), ("a", .vstr "ok")]
        { fields := fun n =>
            if n = "b" then some (.fint 0)
            else if n = "a" then some (.fline "old") else none
          outText := "" }).1.fields "a" = some (.fline "ok")) ∧
    ("[apply] " ++ "b" ++ ": " ++
        ("invalid literal for int() with base 10: " ++ "\x27" ++ "zz" ++ "\x27")) ∈
      (applyParams { name := "T", inputs := [{ name := "b", type := "int" },
          { name := "a", type := "string" }] }
        [("b", .vstr "zz"), ("a", .vstr "ok")]
        { fields := fun n =>
            if n = "b" then some (.fint 0)
            else if n = "a" then some (.fline "old") else none
          outText := "" }).2 := by
  have h := c10_apply_params_best_effort
    { name := "T", inputs := [{ name := "b", type := "int" },
        { name := "a", type := "string" }] }
    [("b", .vstr "zz"), ("a", .vstr "ok")]
    { fields := fun n =>
        if n = "b" then some (.fint 0)
        else if n = "a" then some (.fline "old") else none
      outText := "" }
    (by decide)
  constructor
  · rw [h.2.1 { name := "a", type := "string" } (by decide)]
    decide
  · exact h.2.2.2 [] { name := "b", type := "int" }
      [{ name := "a", type := "string" }] (.vstr "zz") (.fint 0) _
      rfl (by decide) (by decide) (by decide)

/-! ## Claim C7: export/import round-trip -/

/-- C7 counterexample: one list parameter whose single line is `a, b`.
Export stores the comma-join `a, b`; importing splits it at the comma and
re-strips, so re-collecting yields `a,b` — a different value bag (as a
list kind, two items `a`,`b` instead of the single item `a, b`). -/
theorem c7_comma_roundtrip_fails :
    collectValues c7exTool c7exState = [("xs", .vstr "a, b"), ("_output_dir", .vnone)] ∧
    collectValues c7exTool
        (applyParams c7exTool (paramsValues c7exTool c7exState) c7exState).1
      = [("xs", .vstr "a,b"), ("_output_dir", .vnone)] ∧
    collectValues c7exTool
        (applyParams c7exTool (paramsValues c7exTool c7exState) c7exState).1
      ≠ collectValues c7exTool c7exState := by
  refine ⟨by decide, by decide, ?_⟩
  decide

/-- C7 amended: the exported `values` object omits the reserved
output-directory key and every `_`-prefixed key; importing the record
back into the same tool raises no mismatch prompt; and for every
well-formed form whose list lines and checked multi-choice texts are
comma-free (trimmed, non-empty, with duplicate-free choice lists — the
invariants `formWF` records), re-collecting after the import reproduces
the original value bag with its kinds intact (booleans as booleans,
numbers as numbers). -/
theorem c7_export_import_roundtrip (tool : ToolSpec) (st : FormState) (confirm : Bool)
    (hwf : formWF tool st) :
    (∀ p ∈ paramsValues tool st, underscored p.1 = false) ∧
    importApply tool.name (exportRecord tool st) confirm = (false, true) ∧
    collectValues tool (applyParams tool (paramsValues tool st) st).1
      = collectValues tool st := by
  obtain ⟨hnodup, hfok⟩ := hwf
  refine ⟨?_, ?_, ?_⟩
  · intro p hp
    have h2 := List.of_mem_filter hp
    simpa using h2
  · simp [importApply, exportRecord]
  · have hper : ∀ spec ∈ tool.inputs,
        (match (applyParams tool (paramsValues tool st) st).1.fields spec.name with
         | none => none
         | some f => (collectOne spec.type f).map (fun v => (spec.name, v)))
        = (match st.fields spec.name with
           | none => none
           | some f => (collectOne spec.type f).map (fun v => (spec.name, v))) := by
      intro spec hmem
      have hok := hfok spec hmem
      rw [fieldOkAt] at hok
      cases hsf : st.fields spec.name with
      | none => rw [hsf] at hok; exact absurd hok Bool.false_ne_true
      | some f =>
        rw [hsf] at hok
        have hfw : fieldWF spec.type f = true := hok
        obtain ⟨v, hcv⟩ := collectOne_isSome_of_wf spec.type f hfw
        have hchar := applyFold_fields_char (paramsValues tool st) tool.inputs (st, [])
          hnodup spec hmem
        by_cases hund : underscored spec.name = true
        · have hlv : alist.lookup spec.name (paramsValues tool st) = none := by
            apply alist_lookup_eq_none
            intro p hp hc
            have hf2 := List.of_mem_filter hp
            rw [hc, hund] at hf2
            cases hf2
          have hsame : (applyParams tool (paramsValues tool st) st).1.fields spec.name
              = st.fields spec.name := by
            rw [applyParams, hchar, applyStep_fields_self, hlv]
          rw [hsame, hsf]
        · have hundf : underscored spec.name = false := by
            cases h2 : underscored spec.name
            · rfl
            · exact absurd h2 hund
          have hlv : alist.lookup spec.name (paramsValues tool st) = some v := by
            rw [paramsValues]
            rw [alist_lookup_filter spec.name _ _ (fun p hp hc => by
              rw [hc, hundf]; rfl)]
            rw [collectValues]
            exact alist_lookup_append_left spec.name _ _ v
              (alist_lookup_collect_inputs st tool.inputs hnodup spec hmem f v hsf hcv)
          obtain ⟨fNew, hok2, hcv2⟩ := applyOne_roundtrip spec.type f v hfw hcv
          have hfield : (applyParams tool (paramsValues tool st) st).1.fields spec.name
              = some fNew := by
            rw [applyParams, hchar, applyStep_fields_self]
            simp [hlv, hsf, hok2]
          rw [hfield]
          simp [hcv2, hcv]
    have hout := applyFold_outText (paramsValues tool st) tool.inputs (st, [])
    simp only [collectValues]
    congr 1
    · exact List.filterMap_congr hper
    · rw [show (applyParams tool (paramsValues tool st) st).1.outText = st.outText
        from hout]

/-- Witness for C7 (amended) at a concrete two-parameter form. -/
theorem c7_export_import_roundtrip_witness :
    collectValues { name := "T", inputs := [{ name := "a", type := "string" },
        { name := "c", type := "toggle" }] }
      (applyParams { name := "T", inputs := [{ name := "a", type := "string" },
          { name := "c", type := "toggle" }] }
        (paramsValues { name := "T", inputs := [{ name := "a", type := "string" },
            { name := "c", type := "toggle" }] }
          { fields := fun n =>
              if n = "a" then some (.fline " hi ")
              else if n = "c" then some (.ftoggle true) else none
            outText := "" })
        { fields := fun n =>
            if n = "a" then some (.fline " hi ")
            else if n = "c" then some (.ftoggle true) else none
          outText := "" }).1
      = collectValues { name := "T", inputs := [{ name := "a", type := "string" },
          { name := "c", type := "toggle" }] }
        { fields := fun n =>
            if n = "a" then some (.fline " hi ")
            else if n = "c" then some (.ftoggle true) else none
          outText := "" } :=
  (c7_export_import_roundtrip
    { name := "T", inputs := [{ name := "a", type := "string" },
        { name := "c", type := "toggle" }] }
    { fields := fun n =>
        if n = "a" then some (.fline " hi ")
        else if n = "c" then some (.ftoggle true) else none
      outText := "" }
    true (by constructor <;> decide)).2.2

/-! ## Claim C8: import tool-name mismatch guard -/

/-- C8 counterexample: a record declaring tool name `T ` (trailing
space) differs from the current tool's name `T`, yet the guard's
`.strip()`-based comparison treats them as equal: the values are applied
with no confirmation surfaced, even when the caller would have
declined. -/
theorem c8_mismatch_applied_silently :
    ("T " ≠ "T") ∧
    importApply "T" { toolName := some "T ", values := [] } false = (false, true) ∧
    importApply "T" { toolName := some "", values := [] } false = (false, true) := by
  refine ⟨by decide, by decide, by decide⟩

/-- C8 amended: the confirmation decision is surfaced exactly when the
record's declared tool name is non-empty after trimming and differs
after trimming from the current tool's name — and then the values are
applied iff the caller confirms; a declared name that is empty (or
whitespace) after trimming, or that matches the current name after
trimming, is applied without any prompt. -/
theorem c8_import_mismatch_guard (curName : String) (rec : ParamRecord) (confirm : Bool) :
    (pyStrip (rec.toolName.getD "") ≠ "" →
      pyStrip (rec.toolName.getD "") ≠ pyStrip curName →
      importApply curName rec confirm = (true, confirm)) ∧
    ((pyStrip (rec.toolName.getD "") = "" ∨
      pyStrip (rec.toolName.getD "") = pyStrip curName) →
      importApply curName rec confirm = (false, true)) := by
  constructor
  · intro h1 h2
    simp [importApply, h1, h2]
  · intro h
    rcases h with h | h <;> simp [importApply, h]

/-- Witness for C8 (amended): a genuinely different non-blank name
prompts and obeys the answer; a matching name applies silently. -/
theorem c8_import_mismatch_guard_witness :
    importApply "T" { toolName := some "U", values := [] } true = (true, true) ∧
    importApply "T" { toolName := some "T", values := [] } false = (false, true) := by
  have h1 := c8_import_mismatch_guard "T" { toolName := some "U", values := [] } true
  have h2 := c8_import_mismatch_guard "T" { toolName := some "T", values := [] } false
  exact ⟨h1.1 (by decide) (by decide), h2.2 (Or.inr (by decide))⟩

/-! ## Claim C9: forward compatibility of `load_config` -/

/-- C9 counterexample: a parameter record carrying the unknown field
`colour` makes the whole load raise (`InputSpec(**i)` receives an
unexpected keyword argument), while the same record without it loads
fine — unknown parameter fields are *not* dropped silently. -/
theorem c9_unknown_input_field_rejected :
    loadTools [[("name", .jstr "T"),
        ("inputs", .jarr [.jobj [("name", .jstr "x"), ("colour", .jstr "red")]])]]
      = .error ("TypeError: unexpected keyword argument " ++ "\x27" ++ "colour" ++ "\x27") ∧
    (∃ tools, loadTools [[("name", .jstr "T"),
        ("inputs", .jarr [.jobj [("name", .jstr "x")]])]] = .ok tools) :=
  ⟨rfl, ⟨_, rfl⟩⟩

/-- C9 amended: loading is forward-compatible at the tool-record level —
an unknown tool field is ignored and yields the same spec as without it —
and, at the parameter-record level, only for the single legacy field
`placeholder`, which is popped before construction; any other unknown
parameter field causes the load to fail with the unexpected-keyword
error naming it. -/
theorem c9_partial_forward_compat :
    (∀ (tr : List (String × JVal)) (k : String) (v : JVal),
        strMem k toolFieldNames = false →
        toolOfRec ((k, v) :: tr) = toolOfRec tr) ∧
    (∀ (r : List (String × JVal)) (v : JVal),
        inputOfRec (("placeholder", v) :: r) = inputOfRec r) ∧
    (∀ (r : List (String × JVal)) (k : String) (v : JVal),
        strMem k inputFieldNames = false → k ≠ "placeholder" →
        inputOfRec ((k, v) :: r)
          = .error ("TypeError: unexpected keyword argument " ++ "\x27" ++ k ++ "\x27")) := by
  refine ⟨?_, ?_, ?_⟩
  · intro tr k v h
    have hk : k ∉ toolFieldNames := (strMem_false_iff k toolFieldNames).mp h
    have h1 : ¬ k = "name" := fun hc => hk (by rw [hc]; decide)
    have h2 : ¬ k = "runner_mode" := fun hc => hk (by rw [hc]; decide)
    have h3 : ¬ k = "runner" := fun hc => hk (by rw [hc]; decide)
    have h4 : ¬ k = "script" := fun hc => hk (by rw [hc]; decide)
    have h5 : ¬ k = "output_dir_optional" := fun hc => hk (by rw [hc]; decide)
    have h6 : ¬ k = "notes" := fun hc => hk (by rw [hc]; decide)
    have h7 : ¬ k = "inputs" := fun hc => hk (by rw [hc]; decide)
    simp [toolOfRec, jlookup, h1, h2, h3, h4, h5, h6, h7]
  · intro r v
    simp [inputOfRec, List.filter_cons]
  · intro r k v hks hkp
    simp [inputOfRec, List.filter_cons, hkp, hks]

/-- Witness for C9 (amended) at concrete records. -/
theorem c9_partial_forward_compat_witness :
    toolOfRec [("zzz", .jint 3), ("name", .jstr "T")] = toolOfRec [("name", .jstr "T")] ∧
    inputOfRec [("placeholder", .jnull), ("name", .jstr "x")]
      = inputOfRec [("name", .jstr "x")] := by
  have h := c9_partial_forward_compat
  exact ⟨h.1 [("name", .jstr "T")] "zzz" (.jint 3) (by decide),
    h.2.1 [("name", .jstr "x")] .jnull⟩

end Plar
